import Mathlib

/-!
Verification of the kSharp script engine (src/engine.js): the script
compiler (`Compiler.tokenize`, `Compiler.compile`), the tick-driven
virtual machine (`VM.run`, `VM.tick`) and the expression evaluator
(`VM.eval`).  The JavaScript source is shallowly embedded: JS numbers are
modelled as exact rationals together with the special values Infinity,
-Infinity and NaN (double rounding and negative zero are not modelled; all
values appearing in concrete theorems are small and exact), strings are
Lean strings, thrown exceptions are `Except`/`Option`.  The physics
collaborator is external to the core (spec section 1); its telemetry
snapshot (`getOrbit`) is modelled as stored fields of `Phys`.
-/

namespace KSharp

/-- A JavaScript runtime value as it can flow out of the engine's
expression evaluator: a number (exact rational, or Infinity / -Infinity /
NaN), a boolean (from a comparison), a string (from a quoted literal), or
undefined (the result of evaluating an empty expression). -/
inductive JSVal where
  | num (q : ℚ)
  | inf
  | neginf
  | nan
  | bool (b : Bool)
  | str (s : String)
  | undef
deriving DecidableEq

namespace JSVal

/-- JS truthiness: 0, NaN, "", false and undefined are falsy, everything
else (including Infinity) is truthy. -/
def truthy : JSVal → Bool
  | num q => decide (q ≠ 0)
  | inf => true
  | neginf => true
  | nan => false
  | bool b => b
  | str s => decide (s ≠ "")
  | undef => false

/-- JS ToNumber coercion restricted to the value shapes the engine can
produce.  Numeric strings are not modelled (they coerce in JS; no theorem
in this file applies an arithmetic operator to a string operand except
for `+`, which concatenates). -/
def toNumber : JSVal → JSVal
  | num q => num q
  | inf => inf
  | neginf => neginf
  | nan => nan
  | bool b => num (if b then 1 else 0)
  | str _ => nan
  | undef => nan

end JSVal

/-- Decimal digits of the fractional part `r / d`, up to `fuel` digits.
Exact whenever the expansion terminates within `fuel` digits, which covers
every value appearing in this file's theorems; JS prints more exotic
doubles in ways (shortest round-trip, exponent notation) that are not
modelled. -/
def fracDigits : ℕ → ℕ → ℕ → String
  | 0, _, _ => ""
  | _ + 1, 0, _ => ""
  | fuel + 1, r, d => toString (r * 10 / d) ++ fracDigits fuel (r * 10 % d) d

/-- JS Number-to-String conversion for an exact rational: integers print
with no decimal point, other values with a decimal expansion. -/
def numToString (q : ℚ) : String :=
  let sign := if q < 0 then "-" else ""
  let n := q.num.natAbs
  let d := q.den
  if d = 1 then sign ++ toString n
  else sign ++ toString (n / d) ++ "." ++ fracDigits 40 (n % d) d

namespace JSVal

/-- JS String conversion of a value (as used when a value is spliced into
an expression string by `String.replace`). -/
def toStr : JSVal → String
  | num q => numToString q
  | inf => "Infinity"
  | neginf => "-Infinity"
  | nan => "NaN"
  | bool b => if b then "true" else "false"
  | str s => s
  | undef => "undefined"

/-- Addition of two values already coerced to numbers. -/
def addNum : JSVal → JSVal → JSVal
  | num a, num b => num (a + b)
  | nan, _ => nan
  | _, nan => nan
  | inf, neginf => nan
  | neginf, inf => nan
  | inf, _ => inf
  | _, inf => inf
  | neginf, _ => neginf
  | _, neginf => neginf
  | _, _ => nan

/-- JS `+`: string concatenation when either operand is a string,
numeric addition otherwise. -/
def add (a b : JSVal) : JSVal :=
  match a, b with
  | str s, v => str (s ++ v.toStr)
  | v, str s => str (v.toStr ++ s)
  | _, _ => addNum a.toNumber b.toNumber

/-- Numeric negation. -/
def negNum : JSVal → JSVal
  | num a => num (-a)
  | inf => neginf
  | neginf => inf
  | _ => nan

/-- JS binary `-`. -/
def sub (a b : JSVal) : JSVal := addNum a.toNumber (negNum b.toNumber)

/-- Multiplication of two number values. -/
def mulNum : JSVal → JSVal → JSVal
  | num a, num b => num (a * b)
  | nan, _ => nan
  | _, nan => nan
  | inf, num b => if b = 0 then nan else if b > 0 then inf else neginf
  | num a, inf => if a = 0 then nan else if a > 0 then inf else neginf
  | neginf, num b => if b = 0 then nan else if b > 0 then neginf else inf
  | num a, neginf => if a = 0 then nan else if a > 0 then neginf else inf
  | inf, inf => inf
  | inf, neginf => neginf
  | neginf, inf => neginf
  | neginf, neginf => inf
  | _, _ => nan

/-- JS `*`. -/
def mul (a b : JSVal) : JSVal := mulNum a.toNumber b.toNumber

/-- Division of two number values: dividing a nonzero number by zero
yields a signed infinity, `0 / 0` yields NaN (negative zero is not
modelled, so `1 / -0 = -Infinity` is out of scope). -/
def divNum : JSVal → JSVal → JSVal
  | num a, num b =>
      if b = 0 then (if a = 0 then nan else if a > 0 then inf else neginf)
      else num (a / b)
  | nan, _ => nan
  | _, nan => nan
  | inf, num b => if b ≥ 0 then inf else neginf
  | neginf, num b => if b ≥ 0 then neginf else inf
  | num _, inf => num 0
  | num _, neginf => num 0
  | _, _ => nan

/-- JS `/`. -/
def div (a b : JSVal) : JSVal := divNum a.toNumber b.toNumber

/-- Truncation toward zero of a rational. -/
def ratTrunc (q : ℚ) : ℤ := if q ≥ 0 then ⌊q⌋ else ⌈q⌉

/-- JS `%` (fmod: the result takes the dividend's sign). -/
def modJ (a b : JSVal) : JSVal :=
  match a.toNumber, b.toNumber with
  | num x, num y => if y = 0 then nan else num (x - y * ratTrunc (x / y))
  | _, _ => nan

/-- Numeric less-than (comparisons involving NaN are false). -/
def ltNum : JSVal → JSVal → Bool
  | num a, num b => decide (a < b)
  | num _, inf => true
  | neginf, num _ => true
  | neginf, inf => true
  | _, _ => false

/-- JS `<`; two strings compare lexicographically, anything else goes
through ToNumber. -/
def ltJ (a b : JSVal) : Bool :=
  match a, b with
  | str s, str t => decide (s < t)
  | _, _ => ltNum a.toNumber b.toNumber

/-- JS `>`. -/
def gtJ (a b : JSVal) : Bool := ltJ b a

/-- Numeric (and string) equality as used by `<=`, `>=`: NaN compares
false with everything. -/
def eqNum : JSVal → JSVal → Bool
  | num a, num b => decide (a = b)
  | inf, inf => true
  | neginf, neginf => true
  | str s, str t => decide (s = t)
  | _, _ => false

/-- JS `<=` (false whenever either side is NaN). -/
def leJ (a b : JSVal) : Bool := ltJ a b || eqNum a.toNumber b.toNumber

/-- JS `>=`. -/
def geJ (a b : JSVal) : Bool := leJ b a

/-- JS strict equality `===`: same type and same value; NaN is not equal
to itself. -/
def eqStrict : JSVal → JSVal → Bool
  | num a, num b => decide (a = b)
  | inf, inf => true
  | neginf, neginf => true
  | bool a, bool b => decide (a = b)
  | str s, str t => decide (s = t)
  | undef, undef => true
  | _, _ => false

/-- JS loose equality `==` restricted to the shapes the engine produces:
same-type compares like `===`, a boolean against a number goes through
ToNumber; numeric strings are not modelled. -/
def eqLoose (a b : JSVal) : Bool :=
  match a, b with
  | bool _, _ => eqNum a.toNumber b.toNumber
  | _, bool _ => eqNum a.toNumber b.toNumber
  | str s, str t => decide (s = t)
  | _, _ => eqNum a.toNumber b.toNumber

/-- JS `!`. -/
def notJ (a : JSVal) : JSVal := bool (!a.truthy)

/-- JS `Math.round`: half-up toward positive infinity. -/
def roundJ (a : JSVal) : JSVal :=
  match a.toNumber with
  | num q => num (⌊q + 1 / 2⌋ : ℤ)
  | inf => inf
  | neginf => neginf
  | _ => nan

/-- JS `Math.max` over two values (NaN propagates). -/
def maxJ (a b : JSVal) : JSVal :=
  match a.toNumber, b.toNumber with
  | num x, num y => num (max x y)
  | nan, _ => nan
  | _, nan => nan
  | inf, _ => inf
  | _, inf => inf
  | neginf, v => v
  | v, neginf => v
  | _, _ => nan

/-- JS `Math.min` over two values (NaN propagates). -/
def minJ (a b : JSVal) : JSVal :=
  match a.toNumber, b.toNumber with
  | num x, num y => num (min x y)
  | nan, _ => nan
  | _, nan => nan
  | neginf, _ => neginf
  | _, neginf => neginf
  | inf, v => v
  | v, inf => v
  | _, _ => nan

end JSVal

/-! ## String scanning utilities

`VM.eval` rewrites the joined expression string with a chain of
`String.replace` calls before handing it to `eval`.  These scanners model
the four kinds of patterns the source uses: a plain global substring
replacement, the word-boundary replacement used for variables
(`new RegExp("\\b" + key + "\\b", "g")`), and the two structured patterns
`HEADING\s*\(\s*(\d+)\s*,\s*(\d+)\s*\)` and `ROUND\(([^)]+)\)`.  Each
scanner walks the string left to right and, like a JS global regex,
resumes after the text just substituted (replacement text is not
rescanned). -/

/-- A regex word character `\w`: ASCII letter, digit or underscore. -/
def isWordChar (c : Char) : Bool := c.isAlphanum || c = '_'

/-- Whether an optional character is a word character; the edge of the
string (`none`) counts as a non-word position for `\b`. -/
def isWordOpt : Option Char → Bool
  | some c => isWordChar c
  | none => false

/-- Global literal substring replacement, scanning left to right and not
rescanning replacement text, as `String.replace(/lit/g, repl)` does. -/
def replaceAllAux (pat repl : List Char) : ℕ → List Char → List Char
  | _, [] => []
  | 0, l => l
  | fuel + 1, c :: rest =>
      if pat.isPrefixOf (c :: rest) then
        repl ++ replaceAllAux pat repl fuel ((c :: rest).drop pat.length)
      else c :: replaceAllAux pat repl fuel rest

/-- Global literal substring replacement over strings. -/
def replaceAll (pat repl s : String) : String :=
  if pat = "" then s
  else (replaceAllAux pat.toList repl.toList s.toList.length s.toList).asString

/-- Word-boundary global replacement: an occurrence of `pat` is replaced
only when a `\b` boundary holds on both sides (the word-character status
changes across the edge; the start and end of the string are non-word). -/
def wbReplaceAux (pat repl : List Char) (prev : Option Char) :
    ℕ → List Char → List Char
  | _, [] => []
  | 0, l => l
  | fuel + 1, c :: rest =>
      if pat.isPrefixOf (c :: rest) &&
         (isWordOpt prev != isWordOpt pat.head?) &&
         (isWordOpt ((c :: rest).get? pat.length) != isWordOpt pat.getLast?) then
        repl ++ wbReplaceAux pat repl pat.getLast? fuel ((c :: rest).drop pat.length)
      else c :: wbReplaceAux pat repl (some c) fuel rest

/-- Word-boundary replacement over strings, as the variable substitution
`str.replace(new RegExp("\\b" + key + "\\b", "g"), value)` performs. -/
def wbReplace (pat repl s : String) : String :=
  if pat = "" then s
  else (wbReplaceAux pat.toList repl.toList none s.toList.length s.toList).asString

/-- Drop leading regex whitespace. -/
def dropWs (l : List Char) : List Char := l.dropWhile (fun c => c.isWhitespace)

/-- Split off a leading run of ASCII digits. -/
def takeDigits (l : List Char) : List Char × List Char :=
  (l.takeWhile (fun c => c.isDigit), l.dropWhile (fun c => c.isDigit))

/-- Try to match `HEADING\s*\(\s*(\d+)\s*,\s*(\d+)\s*\)` at the head of
the list; on success return the second digit group and the remainder. -/
def matchHeading (l : List Char) : Option (List Char × List Char) :=
  if ("HEADING".toList).isPrefixOf l then
    match dropWs (l.drop 7) with
    | '(' :: l2 =>
        let (d1, l4) := takeDigits (dropWs l2)
        if d1 = [] then none
        else
          match dropWs l4 with
          | ',' :: l6 =>
              let (d2, l8) := takeDigits (dropWs l6)
              if d2 = [] then none
              else
                match dropWs l8 with
                | ')' :: l10 => some (d2, l10)
                | _ => none
          | _ => none
    | _ => none
  else none

/-- Global replacement of `HEADING(a, b)` by `b` (the `"$2"` replacement
in the source). -/
def headingAux : ℕ → List Char → List Char
  | _, [] => []
  | 0, l => l
  | fuel + 1, c :: rest =>
      match matchHeading (c :: rest) with
      | some (d2, after) => d2 ++ headingAux fuel after
      | none => c :: headingAux fuel rest

/-- `str.replace(/HEADING\s*\(\s*(\d+)\s*,\s*(\d+)\s*\)/g, "$2")`. -/
def headingReplace (s : String) : String :=
  (headingAux s.toList.length s.toList).asString

/-- Try to match `ROUND\(([^)]+)\)` at the head of the list; on success
return the captured inner text and the remainder. -/
def matchRound (l : List Char) : Option (List Char × List Char) :=
  if ("ROUND(".toList).isPrefixOf l then
    let l1 := l.drop 6
    let inner := l1.takeWhile (fun c => c ≠ ')')
    if inner = [] then none
    else
      match l1.dropWhile (fun c => c ≠ ')') with
      | ')' :: l3 => some (inner, l3)
      | _ => none
  else none

/-- Global replacement of `ROUND(inner)` by `Math.round(inner)`. -/
def roundAux : ℕ → List Char → List Char
  | _, [] => []
  | 0, l => l
  | fuel + 1, c :: rest =>
      match matchRound (c :: rest) with
      | some (inner, after) =>
          ("Math.round(".toList) ++ inner ++ ')' :: roundAux fuel after
      | none => c :: roundAux fuel rest

/-- `str.replace(/ROUND\(([^)]+)\)/g, "Math.round($1)")`. -/
def roundReplace (s : String) : String :=
  (roundAux s.toList.length s.toList).asString

/-- Comment-stripping scanner: the flag records being inside a `//`
comment, which runs to the end of the line (the newline survives, since
`.` does not match it). -/
def stripAux : Bool → List Char → List Char
  | _, [] => []
  | true, c :: rest => if c = '\n' then c :: stripAux false rest else stripAux true rest
  | false, '/' :: '/' :: rest => stripAux true rest
  | false, c :: rest => c :: stripAux false rest

/-- `src.replace(/\/\/.*" ++ "/g, "")`: strip `//` line comments. -/
def stripComments (s : String) : String :=
  (stripAux false s.toList).asString

/-- Numeric value of a list of ASCII digits. -/
def digitsToNat (l : List Char) : ℕ :=
  l.foldl (fun acc c => acc * 10 + (c.toNat - '0'.toNat)) 0

/-- Exponent suffix of a JS float literal: `e`/`E`, an optional sign and
at least one digit; anything else contributes exponent 0 and is left
unconsumed (as `parseFloat` stops at the first invalid character). -/
def parseExponent (l : List Char) : ℤ :=
  match l with
  | 'e' :: r => parseExponentTail r
  | 'E' :: r => parseExponentTail r
  | _ => 0
where
  parseExponentTail (r : List Char) : ℤ :=
    match r with
    | '-' :: r2 => let (d, _) := takeDigits r2; if d = [] then 0 else -(digitsToNat d : ℤ)
    | '+' :: r2 => let (d, _) := takeDigits r2; if d = [] then 0 else (digitsToNat d : ℤ)
    | r2 => let (d, _) := takeDigits r2; if d = [] then 0 else (digitsToNat d : ℤ)

/-- The numeric core of `parseFloat`: digits, an optional fraction and an
optional exponent, already past any sign.  `none` when no digit is found
at the front. -/
def parseFloatCore (l : List Char) : Option ℚ :=
  let (intPart, l1) := takeDigits l
  let (fracPart, l2) :=
    match l1 with
    | '.' :: r => let (d, r2) := takeDigits r; (d, r2)
    | _ => ([], l1)
  if intPart = [] ∧ fracPart = [] then none
  else
    let base : ℚ := (digitsToNat intPart : ℚ) +
      (digitsToNat fracPart : ℚ) / ((10 : ℚ) ^ fracPart.length)
    let e := parseExponent l2
    some (base * (10 : ℚ) ^ e)

/-- JS `parseFloat`: skip leading whitespace, read an optional sign, then
either the literal `Infinity` or a decimal number; `NaN` when nothing
numeric is found. -/
def parseFloat (s : String) : JSVal :=
  let l := dropWs s.toList
  let (neg, l1) : Bool × List Char :=
    match l with
    | '-' :: r => (true, r)
    | '+' :: r => (false, r)
    | r => (false, r)
  if ("Infinity".toList).isPrefixOf l1 then
    if neg then JSVal.neginf else JSVal.inf
  else
    match parseFloatCore l1 with
    | some q => JSVal.num (if neg then -q else q)
    | none => JSVal.nan

/-! ## The expression evaluator's `eval`

`VM.eval` ends in `try { return eval(str) } catch { return 0 }`.  The
JavaScript `eval` is modelled for the arithmetic / relational / logical
expression fragment the engine feeds it: a full parse first (a parse
failure models a `SyntaxError`), then evaluation in an empty environment
where any identifier is unbound (modelling a `ReferenceError`) except for
the call shape `Math.round(e)`; `&&` and `||` short-circuit and return an
operand value.  `none` models a thrown exception.  Out of scope (no
theorem in this file depends on them): statement syntax such as labels
and semicolons, the ternary operator, calls to other functions, and
numeric-string coercion. -/

/-- First character of a JS identifier. -/
def isIdStart (c : Char) : Bool := c.isAlpha || c = '_' || c = '$'

/-- Subsequent character of a JS identifier. -/
def isIdCont (c : Char) : Bool := c.isAlphanum || c = '_' || c = '$'

/-- A token of the expression language fed to `eval`. -/
inductive ETok where
  | numT (q : ℚ)
  | identT (s : String)
  | strT (s : String)
  | opT (s : String)
deriving DecidableEq

/-- Read a JS numeric literal (digits, optional fraction, optional
exponent) from the head of the list, returning its value and the rest. -/
def lexNumber (l : List Char) : Option (ℚ × List Char) :=
  let (intPart, l1) := takeDigits l
  let (fracPart, l2) :=
    match l1 with
    | '.' :: r => takeDigits r
    | _ => ([], l1)
  if intPart = [] ∧ fracPart = [] then none
  else
    let base : ℚ := (digitsToNat intPart : ℚ) +
      (digitsToNat fracPart : ℚ) / ((10 : ℚ) ^ fracPart.length)
    match l2 with
    | 'e' :: '-' :: r =>
        let (d, r2) := takeDigits r
        if d = [] then some (base, l2)
        else some (base * (10 : ℚ) ^ (-(digitsToNat d : ℤ)), r2)
    | 'e' :: '+' :: r =>
        let (d, r2) := takeDigits r
        if d = [] then some (base, l2)
        else some (base * (10 : ℚ) ^ (digitsToNat d : ℤ), r2)
    | 'e' :: r =>
        let (d, r2) := takeDigits r
        if d = [] then some (base, l2)
        else some (base * (10 : ℚ) ^ (digitsToNat d : ℤ), r2)
    | 'E' :: '-' :: r =>
        let (d, r2) := takeDigits r
        if d = [] then some (base, l2)
        else some (base * (10 : ℚ) ^ (-(digitsToNat d : ℤ)), r2)
    | 'E' :: '+' :: r =>
        let (d, r2) := takeDigits r
        if d = [] then some (base, l2)
        else some (base * (10 : ℚ) ^ (digitsToNat d : ℤ), r2)
    | 'E' :: r =>
        let (d, r2) := takeDigits r
        if d = [] then some (base, l2)
        else some (base * (10 : ℚ) ^ (digitsToNat d : ℤ), r2)
    | _ => some (base, l2)

/-- Lex the expression string; `none` models a `SyntaxError` on a
character that cannot start a token (such as `:` outside the modelled
fragment, `{`, or an unterminated string literal). -/
def elexAux : ℕ → List Char → Option (List ETok)
  | _, [] => some []
  | 0, _ => none
  | fuel + 1, c :: rest =>
      if c.isWhitespace then elexAux fuel rest
      else if c.isDigit then
        match lexNumber (c :: rest) with
        | some (q, r) => (elexAux fuel r).map (fun ts => ETok.numT q :: ts)
        | none => none
      else if isIdStart c then
        let run := (c :: rest).takeWhile isIdCont
        let r := (c :: rest).dropWhile isIdCont
        (elexAux fuel r).map (fun ts => ETok.identT run.asString :: ts)
      else if c = '"' then
        let inner := rest.takeWhile (fun d => d ≠ '"')
        match rest.dropWhile (fun d => d ≠ '"') with
        | '"' :: r => (elexAux fuel r).map (fun ts => ETok.strT inner.asString :: ts)
        | _ => none
      else
        match c :: rest with
        | '=' :: '=' :: '=' :: r => (elexAux fuel r).map (fun ts => ETok.opT "===" :: ts)
        | '!' :: '=' :: '=' :: r => (elexAux fuel r).map (fun ts => ETok.opT "!==" :: ts)
        | '=' :: '=' :: r => (elexAux fuel r).map (fun ts => ETok.opT "==" :: ts)
        | '!' :: '=' :: r => (elexAux fuel r).map (fun ts => ETok.opT "!=" :: ts)
        | '<' :: '=' :: r => (elexAux fuel r).map (fun ts => ETok.opT "<=" :: ts)
        | '>' :: '=' :: r => (elexAux fuel r).map (fun ts => ETok.opT ">=" :: ts)
        | '&' :: '&' :: r => (elexAux fuel r).map (fun ts => ETok.opT "&&" :: ts)
        | '|' :: '|' :: r => (elexAux fuel r).map (fun ts => ETok.opT "||" :: ts)
        | c2 :: r =>
            if c2 ∈ ['+', '-', '*', '/', '%', '<', '>', '!', '(', ')', ',', '.'] then
              (elexAux fuel r).map (fun ts => ETok.opT (String.mk [c2]) :: ts)
            else none
        | [] => some []

/-- Lex an expression string into tokens. -/
def elex (s : String) : Option (List ETok) := elexAux s.toList.length s.toList

/-- Binary operators of the modelled expression fragment. -/
inductive BinOp where
  | addO | subO | mulO | divO | modO
  | ltO | gtO | leO | geO
  | eqLooseO | neLooseO | eqStrictO | neStrictO
  | andO | orO
deriving DecidableEq

/-- Abstract syntax of a parsed JS expression. -/
inductive JExpr where
  | lit (v : JSVal)
  | identE (s : String)
  | roundE (e : JExpr)
  | notE (e : JExpr)
  | negE (e : JExpr)
  | posE (e : JExpr)
  | binE (op : BinOp) (l r : JExpr)
deriving DecidableEq

/-- The binary operators of each precedence level, from token text. -/
def mulOps : List (String × BinOp) :=
  [("*", BinOp.mulO), ("/", BinOp.divO), ("%", BinOp.modO)]

/-- Additive operators. -/
def addOps : List (String × BinOp) := [("+", BinOp.addO), ("-", BinOp.subO)]

/-- Relational operators. -/
def relOps : List (String × BinOp) :=
  [("<", BinOp.ltO), (">", BinOp.gtO), ("<=", BinOp.leO), (">=", BinOp.geO)]

/-- Equality operators. -/
def eqOps : List (String × BinOp) :=
  [("==", BinOp.eqLooseO), ("!=", BinOp.neLooseO),
   ("===", BinOp.eqStrictO), ("!==", BinOp.neStrictO)]

/-- Conjunction. -/
def andOps : List (String × BinOp) := [("&&", BinOp.andO)]

/-- Disjunction. -/
def orOps : List (String × BinOp) := [("||", BinOp.orO)]

/-- Left-associative tail of one binary-operator precedence level:
`sub` parses the next-tighter level. -/
def parseBinRest (ops : List (String × BinOp))
    (sub : List ETok → Option (JExpr × List ETok)) :
    ℕ → JExpr → List ETok → Option (JExpr × List ETok)
  | 0, _, _ => none
  | fuel + 1, e, toks =>
      match toks with
      | ETok.opT o :: r =>
          match ops.lookup o with
          | some op =>
              match sub r with
              | some (e2, r2) => parseBinRest ops sub fuel (JExpr.binE op e e2) r2
              | none => none
          | none => some (e, toks)
      | _ => some (e, toks)

/-- One binary-operator precedence level. -/
def parseBinLevel (ops : List (String × BinOp))
    (sub : List ETok → Option (JExpr × List ETok))
    (toks : List ETok) : Option (JExpr × List ETok) :=
  match sub toks with
  | some (e, r) => parseBinRest ops sub (r.length + 1) e r
  | none => none

/-- Unary level: `!`, unary `-`, unary `+`; `prim` parses a primary. -/
def parseUnaryF (prim : List ETok → Option (JExpr × List ETok)) :
    ℕ → List ETok → Option (JExpr × List ETok)
  | 0, _ => none
  | fuel + 1, toks =>
      match toks with
      | ETok.opT "!" :: r =>
          (parseUnaryF prim fuel r).map (fun p => (JExpr.notE p.1, p.2))
      | ETok.opT "-" :: r =>
          (parseUnaryF prim fuel r).map (fun p => (JExpr.negE p.1, p.2))
      | ETok.opT "+" :: r =>
          (parseUnaryF prim fuel r).map (fun p => (JExpr.posE p.1, p.2))
      | _ => prim toks

/-- Primary expression: literal, identifier, `Math.round(e)` or a
parenthesised expression; `orP` parses a whole expression (for the
parenthesised forms). -/
def parsePrimaryF (orP : List ETok → Option (JExpr × List ETok))
    (toks : List ETok) : Option (JExpr × List ETok) :=
  match toks with
  | ETok.numT q :: r => some (JExpr.lit (JSVal.num q), r)
  | ETok.strT s :: r => some (JExpr.lit (JSVal.str s), r)
  | ETok.identT "true" :: r => some (JExpr.lit (JSVal.bool true), r)
  | ETok.identT "false" :: r => some (JExpr.lit (JSVal.bool false), r)
  | ETok.identT "Infinity" :: r => some (JExpr.lit JSVal.inf, r)
  | ETok.identT "NaN" :: r => some (JExpr.lit JSVal.nan, r)
  | ETok.identT "undefined" :: r => some (JExpr.lit JSVal.undef, r)
  | ETok.identT "Math" :: ETok.opT "." :: ETok.identT "round" :: ETok.opT "(" :: r =>
      match orP r with
      | some (e, ETok.opT ")" :: r2) => some (JExpr.roundE e, r2)
      | _ => none
  | ETok.identT s :: r => some (JExpr.identE s, r)
  | ETok.opT "(" :: r =>
      match orP r with
      | some (e, ETok.opT ")" :: r2) => some (e, r2)
      | _ => none
  | _ => none

/-- The whole expression grammar, by precedence climbing; the outer fuel
bounds parenthesis nesting. -/
def parseOrFuel : ℕ → List ETok → Option (JExpr × List ETok)
  | 0, _ => none
  | fuel + 1, toks =>
      let prim := parsePrimaryF (parseOrFuel fuel)
      let unary := fun ts => parseUnaryF prim (ts.length + 1) ts
      let mulL := parseBinLevel mulOps unary
      let addL := parseBinLevel addOps mulL
      let relL := parseBinLevel relOps addL
      let eqL := parseBinLevel eqOps relL
      let andL := parseBinLevel andOps eqL
      parseBinLevel orOps andL toks

/-- Apply a strict (non-short-circuiting) binary operator to two values. -/
def applyBin (op : BinOp) (a b : JSVal) : JSVal :=
  match op with
  | BinOp.addO => JSVal.add a b
  | BinOp.subO => JSVal.sub a b
  | BinOp.mulO => JSVal.mul a b
  | BinOp.divO => JSVal.div a b
  | BinOp.modO => JSVal.modJ a b
  | BinOp.ltO => JSVal.bool (JSVal.ltJ a b)
  | BinOp.gtO => JSVal.bool (JSVal.gtJ a b)
  | BinOp.leO => JSVal.bool (JSVal.leJ a b)
  | BinOp.geO => JSVal.bool (JSVal.geJ a b)
  | BinOp.eqLooseO => JSVal.bool (JSVal.eqLoose a b)
  | BinOp.neLooseO => JSVal.bool (!JSVal.eqLoose a b)
  | BinOp.eqStrictO => JSVal.bool (JSVal.eqStrict a b)
  | BinOp.neStrictO => JSVal.bool (!JSVal.eqStrict a b)
  | BinOp.andO => a
  | BinOp.orO => a

/-- Evaluate a parsed expression in the empty environment: every free
identifier is unbound (`none`, modelling a `ReferenceError`), `&&` and
`||` short-circuit and return an operand value. -/
def evalJ : JExpr → Option JSVal
  | JExpr.lit v => some v
  | JExpr.identE _ => none
  | JExpr.roundE e => (evalJ e).map JSVal.roundJ
  | JExpr.notE e => (evalJ e).map JSVal.notJ
  | JExpr.negE e => (evalJ e).map (fun v => JSVal.negNum v.toNumber)
  | JExpr.posE e => (evalJ e).map JSVal.toNumber
  | JExpr.binE BinOp.andO l r =>
      match evalJ l with
      | some lv => if lv.truthy then evalJ r else some lv
      | none => none
  | JExpr.binE BinOp.orO l r =>
      match evalJ l with
      | some lv => if lv.truthy then some lv else evalJ r
      | none => none
  | JExpr.binE op l r =>
      match evalJ l with
      | some a =>
          match evalJ r with
          | some b => some (applyBin op a b)
          | none => none
      | none => none

/-- The modelled `eval(str)`: lex, parse the whole string as one
expression, then evaluate; `none` models a thrown exception, and an
all-whitespace string evaluates to `undefined` as in JS. -/
def jsEvalStr (s : String) : Option JSVal :=
  match elex s with
  | none => none
  | some [] => some JSVal.undef
  | some toks =>
      match parseOrFuel (toks.length + 1) toks with
      | some (e, []) => evalJ e
      | _ => none

/-! ## `Compiler.tokenize`

The source strips `//` comments, then collects every match of
`([a-zA-Z0-9_:]+|"[^"]*"|[-+*`/`=<>!]+|\x7b|\x7d|\(|\)|,|\.)` scanning left
to right; characters matching no alternative (whitespace, a quote with no
closing quote) are dropped. -/

/-- A character of the tokenizer's first alternative `[a-zA-Z0-9_:]+`. -/
def isScriptIdChar (c : Char) : Bool := c.isAlphanum || c = '_' || c = ':'

/-- A character of the tokenizer's operator alternative `[-+*`/`=<>!]+`. -/
def isScriptOpChar (c : Char) : Bool :=
  c ∈ ['-', '+', '*', '/', '=', '<', '>', '!']

/-- The single-character punctuation alternatives. -/
def isScriptPunct (c : Char) : Bool :=
  c ∈ ['\x7b', '\x7d', '(', ')', ',', '.']

/-- The raw token strings of a comment-stripped script text. -/
def tokStringsAux : ℕ → List Char → List String
  | _, [] => []
  | 0, _ => []
  | fuel + 1, c :: rest =>
      if isScriptIdChar c then
        ((c :: rest).takeWhile isScriptIdChar).asString ::
          tokStringsAux fuel ((c :: rest).dropWhile isScriptIdChar)
      else if c = '"' then
        let inner := rest.takeWhile (fun d => d ≠ '"')
        match rest.dropWhile (fun d => d ≠ '"') with
        | '"' :: r => ('"' :: (inner ++ ['"'])).asString :: tokStringsAux fuel r
        | _ => tokStringsAux fuel rest
      else if isScriptOpChar c then
        ((c :: rest).takeWhile isScriptOpChar).asString ::
          tokStringsAux fuel ((c :: rest).dropWhile isScriptOpChar)
      else if isScriptPunct c then
        String.mk [c] :: tokStringsAux fuel rest
      else tokStringsAux fuel rest

/-- The fixed keyword set of `Compiler.tokenize`. -/
def KEYWORDS : List String :=
  ["PRINT", "WAIT", "LOCK", "TO", "STAGE", "CLEARSCREEN", "IF", "ELSE",
   "UNTIL", "AT", "DECLARE", "PARAMETER", "SET"]

/-- Token classification. -/
inductive TType where
  | keyword
  | atom
deriving DecidableEq

/-- A script token: its classification and its text. -/
structure Token where
  type : TType
  val : String
deriving DecidableEq

/-- Classify one raw token string. -/
def mkTok (v : String) : Token :=
  ⟨if v ∈ KEYWORDS then TType.keyword else TType.atom, v⟩

/-- `Compiler.tokenize`: strip comments, match all raw tokens, classify
each. -/
def tokenize (src : String) : List Token :=
  (tokStringsAux (stripComments src).toList.length (stripComments src).toList).map mkTok

/-! ## `Compiler.compile`

The compiler's single forward `for` loop over the token array is embedded
as a recursion over the unprocessed suffix of the token list: every index
expression of the source (`tokens[i+1]`, `gather(i+2)`, `i = res.end`,
`i += 5`, the loop's own `i++`) is local to the current index `i`, so the
suffix form is equivalent.  Accessing `.val` of an out-of-range index
(`tokens[i+1].val` when `i+1` is past the end) throws a `TypeError` in
JS, which `VM.run` catches; this is modelled as `Except.error` with the
modelled message text. -/

/-- One compiled bytecode instruction (`-1` jump destinations are the
compiler's unpatched placeholders). -/
inductive Instr where
  | print (expr : List String) (atPos : Option (String × String))
  | lock (target : String) (expr : List String)
  | setVar (target : String) (expr : List String)
  | wait (time : JSVal)
  | yield
  | stage
  | clear
  | jmp (dest : ℤ)
  | jmpTrue (dest : ℤ) (expr : List String)
  | jmpFalse (dest : ℤ) (expr : List String)
deriving DecidableEq

/-- Overwrite the `dest` field of a jump instruction (the only
instructions the compiler ever patches). -/
def setDest : Instr → ℤ → Instr
  | Instr.jmp _, d => Instr.jmp d
  | Instr.jmpTrue _ e, d => Instr.jmpTrue d e
  | Instr.jmpFalse _ e, d => Instr.jmpFalse d e
  | i, _ => i

/-- `instructions[idx].dest = d`. -/
def patchDest : List Instr → ℕ → ℤ → List Instr
  | [], _, _ => []
  | x :: xs, 0, d => setDest x d :: xs
  | x :: xs, n + 1, d => x :: patchDest xs n d

/-- An open block tracked on the compiler's stack. -/
inductive BlockEntry where
  | ifB (idx : ℕ)
  | elseB (idx : ℕ)
  | untilB (idx : ℕ) (start : ℕ)
deriving DecidableEq

/-- The compiler's loop state: emitted instructions, the open-block
stack, and the single `lastClosedIf` slot (the patch index of the most
recently closed IF, consumed by a following ELSE). -/
structure CSt where
  instrs : List Instr
  stack : List BlockEntry
  lastClosedIf : Option ℕ
deriving DecidableEq

/-- A token value at which `gather` stops collecting. -/
def gatherStop (v : String) : Bool := v = "\x7b" || v = "." || v = "AT"

/-- The compiler's `gather`: collect token texts up to (excluding) the
first `\x7b`, `.` or `AT`; the second component is the suffix from the
stop position (the source's `res.end`). -/
def gather : List Token → List String × List Token
  | [] => ([], [])
  | t :: rest =>
      if gatherStop t.val then ([], t :: rest)
      else
        let p := gather rest
        (t.val :: p.1, p.2)

/-- The unprocessed suffix never grows under `gather`. -/
theorem gather_len (l : List Token) : (gather l).2.length ≤ l.length := by
  induction l with
  | nil => simp [gather]
  | cons t rest ih =>
      by_cases h : gatherStop t.val = true
      · simp [gather, h]
      · simp only [gather, h]
        simp only [Bool.false_eq_true, if_false]
        exact le_trans ih (Nat.le_succ _)

/-- The compiler's main loop.  Each branch mirrors the corresponding
`t.val` dispatch of the source; the recursive call's token list is the
suffix the source's next loop iteration would start at. -/
def cloop : List Token → CSt → Except String CSt
  | [], st => Except.ok st
  | t :: rest, st =>
      if t.type = TType.atom ∧ t.val ≠ "\x7d" then cloop rest st
      else if t.val = "PRINT" then
        if ((gather rest).2.head?.map Token.val) = some "AT" then
          match (gather rest).2.get? 2 with
          | none => Except.error "Cannot read properties of undefined (reading 'val')"
          | some x =>
              match (gather rest).2.get? 4 with
              | none => Except.error "Cannot read properties of undefined (reading 'val')"
              | some y =>
                  cloop ((gather rest).2.drop 6)
                    { st with instrs := st.instrs ++ [Instr.print (gather rest).1 (some (x.val, y.val))] }
        else
          cloop (gather rest).2.tail
            { st with instrs := st.instrs ++ [Instr.print (gather rest).1 none] }
      else if t.val = "LOCK" then
        match rest.head? with
        | none => Except.error "Cannot read properties of undefined (reading 'val')"
        | some tgt =>
            cloop (gather (rest.drop 2)).2.tail
              { st with instrs := st.instrs ++ [Instr.lock tgt.val (gather (rest.drop 2)).1] }
      else if t.val = "SET" then
        match rest.head? with
        | none => Except.error "Cannot read properties of undefined (reading 'val')"
        | some tgt =>
            cloop (gather (rest.drop 2)).2.tail
              { st with instrs := st.instrs ++ [Instr.setVar tgt.val (gather (rest.drop 2)).1] }
      else if t.val = "DECLARE" then
        if (rest.head?.map Token.val) = some "PARAMETER" then
          match rest.get? 1 with
          | none => Except.error "Cannot read properties of undefined (reading 'val')"
          | some p =>
              cloop (rest.drop 2)
                { st with instrs := st.instrs ++ [Instr.setVar p.val ["0"]] }
        else cloop rest st
      else if t.val = "WAIT" then
        match rest.head? with
        | none => Except.error "Cannot read properties of undefined (reading 'val')"
        | some h =>
            if h.val = "UNTIL" then
              cloop (gather (rest.drop 1)).2.tail
                { st with instrs := st.instrs ++
                    [Instr.jmpTrue ((st.instrs.length : ℤ) + 3) (gather (rest.drop 1)).1,
                     Instr.yield,
                     Instr.jmp (st.instrs.length : ℤ)] }
            else
              cloop (rest.drop 1)
                { st with instrs := st.instrs ++ [Instr.wait (parseFloat h.val)] }
      else if t.val = "STAGE" then
        cloop rest { st with instrs := st.instrs ++ [Instr.stage] }
      else if t.val = "CLEARSCREEN" then
        cloop rest { st with instrs := st.instrs ++ [Instr.clear] }
      else if t.val = "IF" then
        cloop (gather rest).2.tail
          { st with instrs := st.instrs ++ [Instr.jmpFalse (-1) (gather rest).1],
                    stack := BlockEntry.ifB st.instrs.length :: st.stack }
      else if t.val = "ELSE" then
        match st.lastClosedIf with
        | some idx =>
            cloop (rest.drop 1)
              { instrs := patchDest (st.instrs ++ [Instr.jmp (-1)]) idx ((st.instrs.length : ℤ) + 1),
                stack := BlockEntry.elseB st.instrs.length :: st.stack,
                lastClosedIf := none }
        | none => cloop (rest.drop 1) st
      else if t.val = "UNTIL" then
        cloop (gather rest).2.tail
          { st with instrs := st.instrs ++ [Instr.jmpTrue (-1) (gather rest).1],
                    stack := BlockEntry.untilB st.instrs.length st.instrs.length :: st.stack }
      else if t.val = "\x7d" then
        match st.stack with
        | [] => cloop rest st
        | BlockEntry.untilB idx start :: stRest =>
            cloop rest
              { instrs := patchDest (st.instrs ++ [Instr.yield, Instr.jmp (start : ℤ)]) idx
                  ((st.instrs.length : ℤ) + 2),
                stack := stRest,
                lastClosedIf := st.lastClosedIf }
        | BlockEntry.ifB idx :: stRest =>
            cloop rest
              { instrs := patchDest st.instrs idx (st.instrs.length : ℤ),
                stack := stRest,
                lastClosedIf := some idx }
        | BlockEntry.elseB idx :: stRest =>
            cloop rest
              { instrs := patchDest st.instrs idx (st.instrs.length : ℤ),
                stack := stRest,
                lastClosedIf := st.lastClosedIf }
      else cloop rest st
termination_by toks _ => toks.length
decreasing_by
  all_goals simp_wf
  all_goals
    (have h1 := gather_len rest
     have h2 := gather_len (rest.drop 2)
     have h3 := gather_len (rest.drop 1)
     have h4 := gather_len rest.tail
     simp only [List.length_tail, List.length_drop] at h1 h2 h3 h4 ⊢
     omega)

/-- `Compiler.compile` with the full final loop state exposed. -/
def compileFull (src : String) : Except String CSt :=
  cloop (tokenize src) ⟨[], [], none⟩

/-- `Compiler.compile`: the source returns only `instructions`. -/
def compile (src : String) : Except String (List Instr) :=
  (compileFull src).map CSt.instrs

/-! ## The virtual machine

`VM` owns instructions, a program counter, the running flag, a wait timer
and the variable store, and collaborates with the external physics object
(actuator and staging fields read and written directly) and the log sink
(modelled as an append-only list of entries).  The telemetry snapshot
`getOrbit()` is the excluded physics collaborator's computation (spec
section 1); its outputs `alt`, `ap`, `pe`, `eta` are modelled as stored
fields. -/

/-- The physics collaborator's fields the VM core reads and writes,
telemetry snapshot included. -/
structure Phys where
  stages : ℚ
  fuel : ℚ
  fuelStart : ℚ
  massDry : ℚ
  throttle : JSVal
  steeringTarget : JSVal
  alt : JSVal
  ap : JSVal
  pe : JSVal
  eta : JSVal
deriving DecidableEq

/-- One emitted log entry: `this.log(msg, level, at)`. -/
structure LogEntry where
  msg : JSVal
  level : Option String
  atPos : Option (String × String)
deriving DecidableEq

/-- The VM state, physics collaborator and log sink included. -/
structure VMState where
  instructions : List Instr
  pc : ℤ
  running : Bool
  waitTimer : JSVal
  vars : List (String × JSVal)
  phys : Phys
  log : List LogEntry
deriving DecidableEq

/-- JS object-property assignment on the variable store: overwrite in
place if the key exists, append otherwise (JS string keys keep insertion
order; the integer-key reordering of JS objects is not modelled — no
script in this file names a variable with an all-digit name). -/
def varsSet : List (String × JSVal) → String → JSVal → List (String × JSVal)
  | [], k, v => [(k, v)]
  | (k', v') :: rest, k, v =>
      if k' = k then (k, v) :: rest else (k', v') :: varsSet rest k v

/-- The variable-substitution loop of `VM.eval`: each stored variable is
replaced in insertion order with a word-boundary regex. -/
def varsReplace : List (String × JSVal) → String → String
  | [], s => s
  | (k, v) :: rest, s => varsReplace rest (wbReplace k v.toStr s)

/-- The substitution chain of `VM.eval`, in source order: join the
captured tokens with spaces, then `HEADING(a,b) → b`, the plain global
replacements `ALTITUDE`, `APOAPSIS`, `PERIAPSIS`, `ETA:APOAPSIS`,
`FUEL → fuel/fuelStart`, `THROTTLE`, then `ROUND( → Math.round(`, then
each variable with word boundaries. -/
def evalSubst (phys : Phys) (vars : List (String × JSVal)) (tokens : List String) :
    String :=
  let s0 := String.intercalate " " tokens
  let s1 := headingReplace s0
  let s2 := replaceAll "ALTITUDE" phys.alt.toStr s1
  let s3 := replaceAll "APOAPSIS" phys.ap.toStr s2
  let s4 := replaceAll "PERIAPSIS" phys.pe.toStr s3
  let s5 := replaceAll "ETA:APOAPSIS" phys.eta.toStr s4
  let s6 := replaceAll "FUEL" (JSVal.divNum (JSVal.num phys.fuel) (JSVal.num phys.fuelStart)).toStr s5
  let s7 := replaceAll "THROTTLE" phys.throttle.toStr s6
  let s8 := roundReplace s7
  varsReplace vars s8

/-- `VM.eval`: substitute, then `try { return eval(str) } catch
{ return 0 }`. -/
def vmEval (phys : Phys) (vars : List (String × JSVal)) (tokens : List String) :
    JSVal :=
  match jsEvalStr (evalSubst phys vars tokens) with
  | some v => v
  | none => JSVal.num 0

/-- Fetch the instruction at the program counter (`none` when `pc` is out
of range; a negative `pc` would make the JS source throw on
`cmd.op`, which ends the tick — no compiled program reaches one). -/
def fetch (s : VMState) : Option Instr :=
  if 0 ≤ s.pc then s.instructions.get? s.pc.toNat else none

/-- Execute one instruction: the body of the `while` loop of `VM.tick`. -/
def execInstr (s : VMState) (i : Instr) : VMState :=
  match i with
  | Instr.yield => { s with pc := s.pc + 1 }
  | Instr.wait t => { s with waitTimer := t, pc := s.pc + 1 }
  | Instr.print e a =>
      { s with log := s.log ++ [⟨vmEval s.phys s.vars e, some "info", a⟩],
               pc := s.pc + 1 }
  | Instr.lock tgt e =>
      let v := vmEval s.phys s.vars e
      let p1 := if tgt = "THROTTLE"
        then { s.phys with throttle := JSVal.minJ (JSVal.maxJ v (JSVal.num 0)) (JSVal.num 1) }
        else s.phys
      let p2 := if tgt = "STEERING" then { p1 with steeringTarget := v } else p1
      { s with phys := p2, pc := s.pc + 1 }
  | Instr.setVar tgt e =>
      { s with vars := varsSet s.vars tgt (vmEval s.phys s.vars e), pc := s.pc + 1 }
  | Instr.stage =>
      if 0 < s.phys.stages then
        { s with phys := { s.phys with stages := s.phys.stages - 1,
                                       fuel := s.phys.fuelStart,
                                       massDry := s.phys.massDry * (3 / 5) },
                 log := s.log ++ [⟨JSVal.str "STAGED", some "warn", none⟩],
                 pc := s.pc + 1 }
      else { s with pc := s.pc + 1 }
  | Instr.clear =>
      { s with log := s.log ++ [⟨JSVal.str "CLEAR", none, none⟩], pc := s.pc + 1 }
  | Instr.jmp d => { s with pc := d }
  | Instr.jmpTrue d e =>
      if (vmEval s.phys s.vars e).truthy then { s with pc := d } else { s with pc := s.pc + 1 }
  | Instr.jmpFalse d e =>
      if (vmEval s.phys s.vars e).truthy then { s with pc := s.pc + 1 } else { s with pc := d }

/-- One step of execution: fetch and execute, the identity past the end
of the program. -/
def step (s : VMState) : VMState :=
  match fetch s with
  | some i => execInstr s i
  | none => s

/-- `n` steps of execution. -/
def stepN : ℕ → VMState → VMState
  | 0, s => s
  | n + 1, s => stepN n (step s)

/-- Whether an instruction `break`s out of the tick's batch after
executing. -/
def isBreakOp : Instr → Bool
  | Instr.yield => true
  | Instr.wait _ => true
  | _ => false

/-- The bounded `while (steps < 20 && pc < len)` loop of `VM.tick`:
returns the final state and the number of instructions executed.  The
source increments `steps` only on non-breaking iterations, but a breaking
instruction is always the batch's last, so the executed-instruction
traces coincide with plain fuel counting. -/
def tickLoop : ℕ → VMState → VMState × ℕ
  | 0, s => (s, 0)
  | budget + 1, s =>
      if s.pc < (s.instructions.length : ℤ) then
        match fetch s with
        | none => (s, 0)
        | some i =>
            let s' := execInstr s i
            if isBreakOp i then (s', 1)
            else
              let p := tickLoop budget s'
              (p.1, p.2 + 1)
      else (s, 0)

/-- `VM.tick(dt)`: no-op when not running; count the wait timer down and
return when it is positive; otherwise run the bounded loop and flip
`running` off (logging "Program Ended.") when the program counter has
passed the end.  Also returns the number of instructions executed. -/
def tick (dt : ℚ) (s : VMState) : VMState × ℕ :=
  if !s.running then (s, 0)
  else if JSVal.gtJ s.waitTimer (JSVal.num 0) then
    ({ s with waitTimer := JSVal.sub s.waitTimer (JSVal.num dt) }, 0)
  else
    let p := tickLoop 20 s
    if (p.1.instructions.length : ℤ) ≤ p.1.pc ∧ p.1.running then
      ({ p.1 with running := false,
                  log := p.1.log ++ [⟨JSVal.str "Program Ended.", some "sys", none⟩] }, p.2)
    else p

/-- `VM.run(code)`: reset the variable store, then compile; on success
install the program and start; on a thrown compile error, catch it and
log the message.  The variable reset precedes the compile call in the
source, so it happens even when compilation throws. -/
def run (code : String) (s : VMState) : VMState :=
  match compile code with
  | Except.ok p =>
      { s with vars := [], instructions := p, pc := 0, running := true,
               waitTimer := JSVal.num 0,
               log := s.log ++ [⟨JSVal.str "Program Loaded.", some "sys", none⟩] }
  | Except.error e =>
      { s with vars := [],
               log := s.log ++ [⟨JSVal.str ("Compile Error: " ++ e), some "err", none⟩] }

/-! ## Well-formed statements

The spec's statement grammar (section 6), as an abstract syntax whose
token rendering feeds the embedded compiler.  `goodExpr` keeps expression
tokens clear of the four values `gather` and the dispatcher treat
specially (`\x7b`, `\x7d`, `.`, `AT`); `goodStmt (waitS t)` keeps the
literal distinct from `UNTIL`.  Statements outside this grammar (for
example an `IF` whose block never opens, or a `\x7d` consumed as a `WAIT`
operand) are exactly the ones on which the balanced-blocks claim fails —
see the counterexample for C4. -/

/-- A token value with no special role in `gather` or the dispatcher. -/
def goodTok (v : String) : Bool :=
  !(v = "\x7b" || v = "\x7d" || v = "." || v = "AT")

/-- An expression token list the compiler captures verbatim. -/
def goodExpr (e : List String) : Bool := e.all goodTok

/-- Abstract syntax of one script statement. -/
inductive Stmt where
  | printS (e : List String) (atP : Option (String × String))
  | lockS (tgt : String) (e : List String)
  | setS (tgt : String) (e : List String)
  | declareS (p : String)
  | waitS (t : String)
  | waitUntilS (e : List String)
  | stageS
  | clearS
  | ifS (e : List String) (body : List Stmt)
  | ifElseS (e : List String) (b1 b2 : List Stmt)
  | untilS (e : List String) (body : List Stmt)

mutual

/-- The token rendering of one statement. -/
def renderStmt : Stmt → List Token
  | Stmt.printS e none => mkTok "PRINT" :: e.map mkTok ++ [mkTok "."]
  | Stmt.printS e (some (x, y)) =>
      mkTok "PRINT" :: e.map mkTok ++
        [mkTok "AT", mkTok "(", mkTok x, mkTok ",", mkTok y, mkTok ")", mkTok "."]
  | Stmt.lockS tgt e =>
      mkTok "LOCK" :: mkTok tgt :: mkTok "TO" :: e.map mkTok ++ [mkTok "."]
  | Stmt.setS tgt e =>
      mkTok "SET" :: mkTok tgt :: mkTok "TO" :: e.map mkTok ++ [mkTok "."]
  | Stmt.declareS q => [mkTok "DECLARE", mkTok "PARAMETER", mkTok q, mkTok "."]
  | Stmt.waitS t => [mkTok "WAIT", mkTok t, mkTok "."]
  | Stmt.waitUntilS e => mkTok "WAIT" :: mkTok "UNTIL" :: e.map mkTok ++ [mkTok "."]
  | Stmt.stageS => [mkTok "STAGE", mkTok "."]
  | Stmt.clearS => [mkTok "CLEARSCREEN", mkTok "."]
  | Stmt.ifS e b =>
      mkTok "IF" :: e.map mkTok ++ mkTok "\x7b" :: renderStmts b ++ [mkTok "\x7d"]
  | Stmt.ifElseS e b1 b2 =>
      mkTok "IF" :: e.map mkTok ++ mkTok "\x7b" :: renderStmts b1 ++
        mkTok "\x7d" :: mkTok "ELSE" :: mkTok "\x7b" :: renderStmts b2 ++ [mkTok "\x7d"]
  | Stmt.untilS e b =>
      mkTok "UNTIL" :: e.map mkTok ++ mkTok "\x7b" :: renderStmts b ++ [mkTok "\x7d"]

/-- The token rendering of a statement sequence. -/
def renderStmts : List Stmt → List Token
  | [] => []
  | s :: ss => renderStmt s ++ renderStmts ss

end

mutual

/-- Number of instructions one statement compiles to. -/
def stmtLen : Stmt → ℕ
  | Stmt.printS _ _ => 1
  | Stmt.lockS _ _ => 1
  | Stmt.setS _ _ => 1
  | Stmt.declareS _ => 1
  | Stmt.waitS _ => 1
  | Stmt.waitUntilS _ => 3
  | Stmt.stageS => 1
  | Stmt.clearS => 1
  | Stmt.ifS _ b => 1 + stmtsLen b
  | Stmt.ifElseS _ b1 b2 => 2 + stmtsLen b1 + stmtsLen b2
  | Stmt.untilS _ b => 3 + stmtsLen b

/-- Number of instructions a statement sequence compiles to. -/
def stmtsLen : List Stmt → ℕ
  | [] => 0
  | s :: ss => stmtLen s + stmtsLen ss

end

mutual

/-- The code the compiler emits for one well-formed statement placed at
base position `p`, with all jump destinations already patched. -/
def compileStmtAt (p : ℕ) : Stmt → List Instr
  | Stmt.printS e a => [Instr.print e a]
  | Stmt.lockS tgt e => [Instr.lock tgt e]
  | Stmt.setS tgt e => [Instr.setVar tgt e]
  | Stmt.declareS q => [Instr.setVar q ["0"]]
  | Stmt.waitS t => [Instr.wait (parseFloat t)]
  | Stmt.waitUntilS e =>
      [Instr.jmpTrue ((p : ℤ) + 3) e, Instr.yield, Instr.jmp (p : ℤ)]
  | Stmt.stageS => [Instr.stage]
  | Stmt.clearS => [Instr.clear]
  | Stmt.ifS e b =>
      Instr.jmpFalse ((p : ℤ) + 1 + stmtsLen b) e :: compileStmtsAt (p + 1) b
  | Stmt.ifElseS e b1 b2 =>
      Instr.jmpFalse ((p : ℤ) + 2 + stmtsLen b1) e ::
        (compileStmtsAt (p + 1) b1 ++
          Instr.jmp ((p : ℤ) + 2 + stmtsLen b1 + stmtsLen b2) ::
            compileStmtsAt (p + 2 + stmtsLen b1) b2)
  | Stmt.untilS e b =>
      Instr.jmpTrue ((p : ℤ) + 3 + stmtsLen b) e ::
        (compileStmtsAt (p + 1) b ++ [Instr.yield, Instr.jmp (p : ℤ)])

/-- The code the compiler emits for a well-formed statement sequence at
base position `p`. -/
def compileStmtsAt (p : ℕ) : List Stmt → List Instr
  | [] => []
  | s :: ss => compileStmtAt p s ++ compileStmtsAt (p + stmtLen s) ss

end

mutual

/-- The `lastClosedIf` slot after compiling one statement at base `p`
with incoming slot `prev`. -/
def lciStmt (p : ℕ) (prev : Option ℕ) : Stmt → Option ℕ
  | Stmt.ifS _ _ => some p
  | Stmt.ifElseS _ b1 b2 => lciStmts (p + 2 + stmtsLen b1) none b2
  | Stmt.untilS _ b => lciStmts (p + 1) prev b
  | _ => prev

/-- The `lastClosedIf` slot after compiling a statement sequence. -/
def lciStmts (p : ℕ) (prev : Option ℕ) : List Stmt → Option ℕ
  | [] => prev
  | s :: ss => lciStmts (p + stmtLen s) (lciStmt p prev s) ss

end

mutual

/-- Well-formedness of one statement. -/
def goodStmt : Stmt → Bool
  | Stmt.printS e _ => goodExpr e
  | Stmt.lockS _ e => goodExpr e
  | Stmt.setS _ e => goodExpr e
  | Stmt.declareS _ => true
  | Stmt.waitS t => decide (t ≠ "UNTIL")
  | Stmt.waitUntilS e => goodExpr e
  | Stmt.stageS => true
  | Stmt.clearS => true
  | Stmt.ifS e b => goodExpr e && goodStmts b
  | Stmt.ifElseS e b1 b2 => goodExpr e && goodStmts b1 && goodStmts b2
  | Stmt.untilS e b => goodExpr e && goodStmts b

/-- Well-formedness of a statement sequence. -/
def goodStmts : List Stmt → Bool
  | [] => true
  | s :: ss => goodStmt s && goodStmts ss

end

/-! ## Compiler correctness lemmas -/

/-- `mkTok` preserves the token text. -/
theorem mkTok_val (v : String) : (mkTok v).val = v := rfl

/-- A good expression token is not a `gather` stop token. -/
theorem gatherStop_of_goodTok {v : String} (h : goodTok v = true) :
    gatherStop v = false := by
  simp only [goodTok, Bool.not_eq_true', Bool.or_eq_false_iff, decide_eq_false_iff_not] at h
  simp only [gatherStop, Bool.or_eq_false_iff, decide_eq_false_iff_not]
  exact ⟨⟨h.1.1.1, h.1.2⟩, h.2⟩

/-- `gather` collects a rendered good expression verbatim and stops at
the first stop token. -/
theorem gather_render {e : List String} (he : goodExpr e = true)
    (t : Token) (ht : gatherStop t.val = true) (r : List Token) :
    gather (e.map mkTok ++ t :: r) = (e, t :: r) := by
  induction e with
  | nil => simp [gather, ht]
  | cons v e' ih =>
      simp only [goodExpr, List.all_cons, Bool.and_eq_true] at he
      have hv := gatherStop_of_goodTok he.1
      have := ih (by simpa [goodExpr] using he.2)
      simp [gather, mkTok_val, hv, this]

/-- Patching past a prefix patches the suffix. -/
theorem patchDest_append (l1 l2 : List Instr) (k : ℕ) (d : ℤ) :
    patchDest (l1 ++ l2) (l1.length + k) d = l1 ++ patchDest l2 k d := by
  induction l1 with
  | nil => simp
  | cons x xs ih => simpa [patchDest, Nat.succ_add] using ih

/-- Patching one position into a cons. -/
theorem patchDest_cons_succ (x : Instr) (xs : List Instr) (n : ℕ) (d : ℤ) :
    patchDest (x :: xs) (n + 1) d = x :: patchDest xs n d := rfl

/-- Patching at the head of the suffix. -/
theorem patchDest_append_cons (l1 : List Instr) (x : Instr) (l2 : List Instr) (d : ℤ) :
    patchDest (l1 ++ x :: l2) l1.length d = l1 ++ setDest x d :: l2 := by
  simpa using patchDest_append l1 (x :: l2) 0 d

/-! One unfolding lemma per dispatch branch of the compiler loop. -/

theorem cloop_skip (t : Token) (rest : List Token) (st : CSt)
    (h1 : t.type = TType.atom) (h2 : t.val ≠ "\x7d") :
    cloop (t :: rest) st = cloop rest st := by
  rw [cloop]
  simp [h1, h2]

theorem cloop_print (rest : List Token) (st : CSt) (e : List String)
    (stop : List Token) (hg : gather rest = (e, stop))
    (hstop : stop.head?.map Token.val ≠ some "AT") :
    cloop (mkTok "PRINT" :: rest) st =
      cloop stop.tail { st with instrs := st.instrs ++ [Instr.print e none] } := by
  rw [cloop]
  simp [mkTok, KEYWORDS, hg, hstop]

theorem cloop_print_at (rest : List Token) (st : CSt) (e : List String)
    (stop : List Token) (x y : Token) (hg : gather rest = (e, stop))
    (h0 : stop.head?.map Token.val = some "AT")
    (h2 : stop[2]? = some x) (h4 : stop[4]? = some y) :
    cloop (mkTok "PRINT" :: rest) st =
      cloop (stop.drop 6)
        { st with instrs := st.instrs ++ [Instr.print e (some (x.val, y.val))] } := by
  rw [cloop]
  simp [mkTok, KEYWORDS, hg, h0, h2, h4]

theorem cloop_lock (rest : List Token) (st : CSt) (tgt : Token)
    (e : List String) (stop : List Token)
    (hh : rest.head? = some tgt) (hg : gather (rest.drop 2) = (e, stop)) :
    cloop (mkTok "LOCK" :: rest) st =
      cloop stop.tail { st with instrs := st.instrs ++ [Instr.lock tgt.val e] } := by
  rw [cloop]
  simp [mkTok, KEYWORDS, hh, hg]

theorem cloop_set (rest : List Token) (st : CSt) (tgt : Token)
    (e : List String) (stop : List Token)
    (hh : rest.head? = some tgt) (hg : gather (rest.drop 2) = (e, stop)) :
    cloop (mkTok "SET" :: rest) st =
      cloop stop.tail { st with instrs := st.instrs ++ [Instr.setVar tgt.val e] } := by
  rw [cloop]
  simp [mkTok, KEYWORDS, hh, hg]

theorem cloop_declare (rest : List Token) (st : CSt) (p : Token)
    (hh : rest.head?.map Token.val = some "PARAMETER") (h1 : rest[1]? = some p) :
    cloop (mkTok "DECLARE" :: rest) st =
      cloop (rest.drop 2) { st with instrs := st.instrs ++ [Instr.setVar p.val ["0"]] } := by
  rw [cloop]
  simp [mkTok, KEYWORDS, hh, h1]

theorem cloop_wait_until (rest : List Token) (st : CSt) (h : Token)
    (e : List String) (stop : List Token)
    (hh : rest.head? = some h) (hval : h.val = "UNTIL")
    (hg : gather rest.tail = (e, stop)) :
    cloop (mkTok "WAIT" :: rest) st =
      cloop stop.tail
        { st with instrs := st.instrs ++
            [Instr.jmpTrue ((st.instrs.length : ℤ) + 3) e, Instr.yield,
             Instr.jmp (st.instrs.length : ℤ)] } := by
  rw [cloop]
  simp [mkTok, KEYWORDS, hh, hval, hg]

theorem cloop_wait_num (rest : List Token) (st : CSt) (h : Token)
    (hh : rest.head? = some h) (hval : h.val ≠ "UNTIL") :
    cloop (mkTok "WAIT" :: rest) st =
      cloop (rest.drop 1)
        { st with instrs := st.instrs ++ [Instr.wait (parseFloat h.val)] } := by
  rw [cloop]
  simp [mkTok, KEYWORDS, hh, hval]

theorem cloop_stage (rest : List Token) (st : CSt) :
    cloop (mkTok "STAGE" :: rest) st =
      cloop rest { st with instrs := st.instrs ++ [Instr.stage] } := by
  rw [cloop]
  simp [mkTok, KEYWORDS]

theorem cloop_clearscreen (rest : List Token) (st : CSt) :
    cloop (mkTok "CLEARSCREEN" :: rest) st =
      cloop rest { st with instrs := st.instrs ++ [Instr.clear] } := by
  rw [cloop]
  simp [mkTok, KEYWORDS]

theorem cloop_ifkw (rest : List Token) (st : CSt) (e : List String)
    (stop : List Token) (hg : gather rest = (e, stop)) :
    cloop (mkTok "IF" :: rest) st =
      cloop stop.tail
        { st with instrs := st.instrs ++ [Instr.jmpFalse (-1) e],
                  stack := BlockEntry.ifB st.instrs.length :: st.stack } := by
  rw [cloop]
  simp [mkTok, KEYWORDS, hg]

theorem cloop_elsekw (rest : List Token) (st : CSt) (idx : ℕ)
    (hlci : st.lastClosedIf = some idx) :
    cloop (mkTok "ELSE" :: rest) st =
      cloop (rest.drop 1)
        ⟨patchDest (st.instrs ++ [Instr.jmp (-1)]) idx ((st.instrs.length : ℤ) + 1),
         BlockEntry.elseB st.instrs.length :: st.stack, none⟩ := by
  rw [cloop]
  simp [mkTok, KEYWORDS, hlci]

theorem cloop_untilkw (rest : List Token) (st : CSt) (e : List String)
    (stop : List Token) (hg : gather rest = (e, stop)) :
    cloop (mkTok "UNTIL" :: rest) st =
      cloop stop.tail
        { st with instrs := st.instrs ++ [Instr.jmpTrue (-1) e],
                  stack := BlockEntry.untilB st.instrs.length st.instrs.length :: st.stack } := by
  rw [cloop]
  simp [mkTok, KEYWORDS, hg]

theorem cloop_close_if (rest : List Token) (st : CSt) (idx : ℕ)
    (stRest : List BlockEntry) (hs : st.stack = BlockEntry.ifB idx :: stRest) :
    cloop (mkTok "\x7d" :: rest) st =
      cloop rest ⟨patchDest st.instrs idx (st.instrs.length : ℤ), stRest, some idx⟩ := by
  rw [cloop]
  simp [mkTok, KEYWORDS, hs]

theorem cloop_close_else (rest : List Token) (st : CSt) (idx : ℕ)
    (stRest : List BlockEntry) (hs : st.stack = BlockEntry.elseB idx :: stRest) :
    cloop (mkTok "\x7d" :: rest) st =
      cloop rest
        ⟨patchDest st.instrs idx (st.instrs.length : ℤ), stRest, st.lastClosedIf⟩ := by
  rw [cloop]
  simp [mkTok, KEYWORDS, hs]

theorem cloop_close_until (rest : List Token) (st : CSt) (idx start : ℕ)
    (stRest : List BlockEntry) (hs : st.stack = BlockEntry.untilB idx start :: stRest) :
    cloop (mkTok "\x7d" :: rest) st =
      cloop rest
        ⟨patchDest (st.instrs ++ [Instr.yield, Instr.jmp (start : ℤ)]) idx
           ((st.instrs.length : ℤ) + 2),
         stRest, st.lastClosedIf⟩ := by
  rw [cloop]
  simp [mkTok, KEYWORDS, hs]

mutual

/-- The compiled code of one statement is `stmtLen` long. -/
theorem length_compileStmtAt (p : ℕ) (s : Stmt) :
    (compileStmtAt p s).length = stmtLen s := by
  cases s with
  | printS e a => cases a <;> rfl
  | lockS tgt e => rfl
  | setS tgt e => rfl
  | declareS q => rfl
  | waitS t => rfl
  | waitUntilS e => rfl
  | stageS => rfl
  | clearS => rfl
  | ifS e b =>
      simp [compileStmtAt, stmtLen, length_compileStmtsAt (p + 1) b, Nat.add_comm]
  | ifElseS e b1 b2 =>
      simp [compileStmtAt, stmtLen, length_compileStmtsAt (p + 1) b1,
        length_compileStmtsAt (p + 2 + stmtsLen b1) b2]
      omega
  | untilS e b =>
      simp [compileStmtAt, stmtLen, length_compileStmtsAt (p + 1) b]
      omega

/-- The compiled code of a statement sequence is `stmtsLen` long. -/
theorem length_compileStmtsAt (p : ℕ) (ss : List Stmt) :
    (compileStmtsAt p ss).length = stmtsLen ss := by
  cases ss with
  | nil => rfl
  | cons s ss' =>
      simp [compileStmtsAt, stmtsLen, length_compileStmtAt p s,
        length_compileStmtsAt (p + stmtLen s) ss']

end

mutual

/-- Compiler-loop simulation: fed the token rendering of one well-formed
statement followed by anything else, the loop emits exactly that
statement's compiled code at the current position, leaves the block stack
as it found it, and updates `lastClosedIf` as `lciStmt` describes. -/
theorem cloop_stmt (s : Stmt) (rest : List Token) (st : CSt)
    (h : goodStmt s = true) :
    cloop (renderStmt s ++ rest) st =
      cloop rest ⟨st.instrs ++ compileStmtAt st.instrs.length s, st.stack,
                  lciStmt st.instrs.length st.lastClosedIf s⟩ := by
  cases s with
  | printS e a =>
      have he : goodExpr e = true := by simpa [goodStmt] using h
      cases a with
      | none =>
          simp only [renderStmt, List.cons_append, List.append_assoc,
            List.singleton_append, List.nil_append]
          rw [cloop_print (e.map mkTok ++ mkTok "." :: rest) st e (mkTok "." :: rest)
            (gather_render he (mkTok ".") (by decide) rest) (by simp [mkTok])]
          simp [compileStmtAt, lciStmt]
      | some xy =>
          obtain ⟨x, y⟩ := xy
          simp only [renderStmt, List.cons_append, List.append_assoc, List.cons_append,
            List.singleton_append, List.nil_append]
          rw [cloop_print_at
            (e.map mkTok ++ mkTok "AT" :: mkTok "(" :: mkTok x :: mkTok "," :: mkTok y ::
              mkTok ")" :: mkTok "." :: rest) st e
            (mkTok "AT" :: mkTok "(" :: mkTok x :: mkTok "," :: mkTok y :: mkTok ")" ::
              mkTok "." :: rest) (mkTok x) (mkTok y)
            (gather_render he (mkTok "AT") (by decide) _) rfl rfl rfl]
          rw [show List.drop 6
              (mkTok "AT" :: mkTok "(" :: mkTok x :: mkTok "," :: mkTok y :: mkTok ")" ::
                mkTok "." :: rest) = mkTok "." :: rest from rfl]
          rw [cloop_skip (mkTok ".") rest _ rfl (by simp [mkTok])]
          simp [compileStmtAt, lciStmt, mkTok_val]
  | lockS tgt e =>
      have he : goodExpr e = true := by simpa [goodStmt] using h
      simp only [renderStmt, List.cons_append, List.append_assoc,
        List.singleton_append, List.nil_append]
      rw [cloop_lock (mkTok tgt :: mkTok "TO" :: (e.map mkTok ++ mkTok "." :: rest)) st
        (mkTok tgt) e (mkTok "." :: rest) rfl
        (gather_render he (mkTok ".") (by decide) rest)]
      simp [compileStmtAt, lciStmt, mkTok_val]
  | setS tgt e =>
      have he : goodExpr e = true := by simpa [goodStmt] using h
      simp only [renderStmt, List.cons_append, List.append_assoc,
        List.singleton_append, List.nil_append]
      rw [cloop_set (mkTok tgt :: mkTok "TO" :: (e.map mkTok ++ mkTok "." :: rest)) st
        (mkTok tgt) e (mkTok "." :: rest) rfl
        (gather_render he (mkTok ".") (by decide) rest)]
      simp [compileStmtAt, lciStmt, mkTok_val]
  | declareS q =>
      simp only [renderStmt, List.cons_append, List.append_assoc,
        List.singleton_append, List.nil_append]
      rw [cloop_declare (mkTok "PARAMETER" :: mkTok q :: mkTok "." :: rest) st
        (mkTok q) rfl rfl]
      rw [show List.drop 2 (mkTok "PARAMETER" :: mkTok q :: mkTok "." :: rest) =
        mkTok "." :: rest from rfl]
      rw [cloop_skip (mkTok ".") rest _ rfl (by simp [mkTok])]
      simp [compileStmtAt, lciStmt, mkTok_val]
  | waitS t =>
      simp only [renderStmt, List.cons_append, List.append_assoc,
        List.singleton_append, List.nil_append]
      have ht : (mkTok t).val ≠ "UNTIL" := by
        simpa [mkTok_val, goodStmt] using h
      rw [cloop_wait_num (mkTok t :: mkTok "." :: rest) st (mkTok t) rfl ht]
      rw [show List.drop 1 (mkTok t :: mkTok "." :: rest) = mkTok "." :: rest from rfl]
      rw [cloop_skip (mkTok ".") rest _ rfl (by simp [mkTok])]
      simp [compileStmtAt, lciStmt, mkTok_val]
  | waitUntilS e =>
      have he : goodExpr e = true := by simpa [goodStmt] using h
      simp only [renderStmt, List.cons_append, List.append_assoc,
        List.singleton_append, List.nil_append]
      rw [cloop_wait_until (mkTok "UNTIL" :: (e.map mkTok ++ mkTok "." :: rest)) st
        (mkTok "UNTIL") e (mkTok "." :: rest) rfl rfl
        (gather_render he (mkTok ".") (by decide) rest)]
      simp [compileStmtAt, lciStmt]
  | stageS =>
      simp only [renderStmt, List.cons_append, List.singleton_append, List.nil_append]
      rw [cloop_stage, cloop_skip (mkTok ".") rest _ rfl (by simp [mkTok])]
      simp [compileStmtAt, lciStmt]
  | clearS =>
      simp only [renderStmt, List.cons_append, List.singleton_append, List.nil_append]
      rw [cloop_clearscreen, cloop_skip (mkTok ".") rest _ rfl (by simp [mkTok])]
      simp [compileStmtAt, lciStmt]
  | ifS e b =>
      have he : goodExpr e = true := by
        have := h; simp only [goodStmt, Bool.and_eq_true] at this; exact this.1
      have hb : goodStmts b = true := by
        have := h; simp only [goodStmt, Bool.and_eq_true] at this; exact this.2
      simp only [renderStmt, List.cons_append, List.append_assoc, List.cons_append,
        List.singleton_append, List.nil_append]
      rw [cloop_ifkw (e.map mkTok ++ mkTok "\x7b" :: (renderStmts b ++ mkTok "\x7d" :: rest))
        st e (mkTok "\x7b" :: (renderStmts b ++ mkTok "\x7d" :: rest))
        (gather_render he (mkTok "\x7b") (by decide) _)]
      rw [show (mkTok "\x7b" :: (renderStmts b ++ mkTok "\x7d" :: rest)).tail =
        renderStmts b ++ mkTok "\x7d" :: rest from rfl]
      rw [cloop_stmts b (mkTok "\x7d" :: rest) _ hb]
      rw [cloop_close_if rest _ st.instrs.length st.stack (by simp)]
      simp only [CSt.instrs, List.append_assoc, List.singleton_append, List.length_append,
        List.length_singleton]
      rw [patchDest_append_cons]
      simp [compileStmtAt, lciStmt, setDest, length_compileStmtsAt]
      ring_nf
  | ifElseS e b1 b2 =>
      have he : goodExpr e = true := by
        have := h; simp only [goodStmt, Bool.and_eq_true] at this; exact this.1.1
      have hb1 : goodStmts b1 = true := by
        have := h; simp only [goodStmt, Bool.and_eq_true] at this; exact this.1.2
      have hb2 : goodStmts b2 = true := by
        have := h; simp only [goodStmt, Bool.and_eq_true] at this; exact this.2
      simp only [renderStmt, List.cons_append, List.append_assoc, List.cons_append,
        List.singleton_append, List.nil_append]
      rw [cloop_ifkw (e.map mkTok ++ mkTok "\x7b" :: (renderStmts b1 ++
          mkTok "\x7d" :: mkTok "ELSE" :: mkTok "\x7b" :: (renderStmts b2 ++
            mkTok "\x7d" :: rest)))
        st e (mkTok "\x7b" :: (renderStmts b1 ++
          mkTok "\x7d" :: mkTok "ELSE" :: mkTok "\x7b" :: (renderStmts b2 ++
            mkTok "\x7d" :: rest)))
        (gather_render he (mkTok "\x7b") (by decide) _)]
      rw [show (mkTok "\x7b" :: (renderStmts b1 ++
          mkTok "\x7d" :: mkTok "ELSE" :: mkTok "\x7b" :: (renderStmts b2 ++
            mkTok "\x7d" :: rest))).tail =
        renderStmts b1 ++ mkTok "\x7d" :: mkTok "ELSE" :: mkTok "\x7b" ::
          (renderStmts b2 ++ mkTok "\x7d" :: rest) from rfl]
      rw [cloop_stmts b1 _ _ hb1]
      rw [cloop_close_if _ _ st.instrs.length st.stack (by simp)]
      simp only [CSt.instrs, List.append_assoc, List.cons_append, List.singleton_append,
        List.length_append, List.length_singleton]
      rw [patchDest_append_cons]
      simp only [List.nil_append, List.length_cons, length_compileStmtsAt, setDest]
      rw [cloop_elsekw (mkTok "\x7b" :: (renderStmts b2 ++ mkTok "\x7d" :: rest))
        ⟨st.instrs ++ Instr.jmpFalse (((st.instrs.length + (stmtsLen b1 + 1)) : ℕ) : ℤ) e ::
           compileStmtsAt (st.instrs.length + 1) b1, st.stack, some st.instrs.length⟩
        st.instrs.length rfl]
      simp only [CSt.instrs, CSt.stack, List.drop_one, List.tail_cons, List.append_assoc,
        List.cons_append, List.length_append, List.length_cons, length_compileStmtsAt]
      rw [patchDest_append_cons]
      simp only [setDest]
      rw [cloop_stmts b2 (mkTok "\x7d" :: rest)
        ⟨st.instrs ++ Instr.jmpFalse (((st.instrs.length + (stmtsLen b1 + 1) : ℕ) : ℤ) + 1) e ::
           (compileStmtsAt (st.instrs.length + 1) b1 ++ [Instr.jmp (-1)]),
         BlockEntry.elseB (st.instrs.length + (stmtsLen b1 + 1)) :: st.stack, none⟩ hb2]
      simp only [CSt.instrs, CSt.stack, CSt.lastClosedIf, List.length_append, List.length_cons,
        List.length_singleton, List.length_nil, Nat.zero_add, Nat.add_zero, length_compileStmtsAt]
      rw [cloop_close_else rest
        ⟨st.instrs ++ (Instr.jmpFalse (((st.instrs.length + (stmtsLen b1 + 1) : ℕ) : ℤ) + 1) e ::
           (compileStmtsAt (st.instrs.length + 1) b1 ++ [Instr.jmp (-1)])) ++
             compileStmtsAt (st.instrs.length + (stmtsLen b1 + 1 + 1)) b2,
         BlockEntry.elseB (st.instrs.length + (stmtsLen b1 + 1)) :: st.stack,
         lciStmts (st.instrs.length + (stmtsLen b1 + 1 + 1)) none b2⟩
        (st.instrs.length + (stmtsLen b1 + 1)) st.stack rfl]
      simp only [CSt.instrs, CSt.lastClosedIf, List.length_append, List.length_cons,
        List.length_singleton, List.length_nil, Nat.zero_add, Nat.add_zero,
        length_compileStmtsAt, compileStmtAt, lciStmt]
      rw [show st.instrs.length + (stmtsLen b1 + 1 + 1) = st.instrs.length + 2 + stmtsLen b1 by omega]
      generalize hc1 : compileStmtsAt (st.instrs.length + 1) b1 = c1
      generalize hc2 : compileStmtsAt (st.instrs.length + 2 + stmtsLen b1) b2 = c2
      have hL1 : c1.length = stmtsLen b1 := by rw [← hc1]; exact length_compileStmtsAt _ _
      have hL2 : c2.length = stmtsLen b2 := by rw [← hc2]; exact length_compileStmtsAt _ _
      simp only [← hL1, ← hL2]
      simp only [List.append_assoc, List.cons_append, List.singleton_append, List.nil_append]
      rw [patchDest_append st.instrs
        (Instr.jmpFalse (((st.instrs.length + (c1.length + 1) : ℕ) : ℤ) + 1) e ::
          (c1 ++ Instr.jmp (-1) :: c2)) (c1.length + 1) _]
      rw [patchDest_cons_succ]
      rw [patchDest_append_cons c1 (Instr.jmp (-1)) c2 _]
      simp only [setDest]
      have hd1 : ((st.instrs.length + (c1.length + 1) : ℕ) : ℤ) + 1 =
          (st.instrs.length : ℤ) + 2 + (c1.length : ℤ) := by push_cast; ring
      have hdf : ((st.instrs.length + 2 + c1.length + c2.length : ℕ) : ℤ) =
          (st.instrs.length : ℤ) + 2 + (c1.length : ℤ) + (c2.length : ℤ) := by push_cast; ring
      rw [hd1, hdf]
  | untilS e b =>
      have he : goodExpr e = true := by
        have := h; simp only [goodStmt, Bool.and_eq_true] at this; exact this.1
      have hb : goodStmts b = true := by
        have := h; simp only [goodStmt, Bool.and_eq_true] at this; exact this.2
      simp only [renderStmt, List.cons_append, List.append_assoc, List.cons_append,
        List.singleton_append, List.nil_append]
      rw [cloop_untilkw (e.map mkTok ++ mkTok "\x7b" :: (renderStmts b ++ mkTok "\x7d" :: rest))
        st e (mkTok "\x7b" :: (renderStmts b ++ mkTok "\x7d" :: rest))
        (gather_render he (mkTok "\x7b") (by decide) _)]
      rw [show (mkTok "\x7b" :: (renderStmts b ++ mkTok "\x7d" :: rest)).tail =
        renderStmts b ++ mkTok "\x7d" :: rest from rfl]
      rw [cloop_stmts b (mkTok "\x7d" :: rest) _ hb]
      rw [cloop_close_until rest _ st.instrs.length st.instrs.length st.stack (by simp)]
      simp only [CSt.instrs, List.append_assoc, List.cons_append, List.singleton_append,
        List.length_append, List.length_singleton]
      rw [patchDest_append_cons]
      simp [compileStmtAt, lciStmt, setDest, length_compileStmtsAt]
      ring_nf

/-- Sequence version of `cloop_stmt`. -/
theorem cloop_stmts (ss : List Stmt) (rest : List Token) (st : CSt)
    (h : goodStmts ss = true) :
    cloop (renderStmts ss ++ rest) st =
      cloop rest ⟨st.instrs ++ compileStmtsAt st.instrs.length ss, st.stack,
                  lciStmts st.instrs.length st.lastClosedIf ss⟩ := by
  cases ss with
  | nil => simp [renderStmts, compileStmtsAt, lciStmts]
  | cons s ss' =>
      simp only [goodStmts, Bool.and_eq_true] at h
      simp only [renderStmts, List.append_assoc]
      rw [cloop_stmt s _ _ h.1]
      rw [cloop_stmts ss' rest _ h.2]
      simp [compileStmtsAt, lciStmts, length_compileStmtAt]

end

/-- Properly nested braces, as a Dyck check over token values. -/
def balAux : ℕ → List Token → Bool
  | n, [] => decide (n = 0)
  | n, t :: r =>
      if t.val = "\x7b" then balAux (n + 1) r
      else if t.val = "\x7d" then decide (0 < n) && balAux (n - 1) r
      else balAux n r

/-- A script's `\x7b \x7d` blocks are balanced (properly nested). -/
def balancedBraces (ts : List Token) : Bool := balAux 0 ts

/-- A jump destination within `[lo, hi]`; non-jump instructions pass. -/
def destOK (lo hi : ℤ) : Instr → Bool
  | Instr.jmp d => lo ≤ d && d ≤ hi
  | Instr.jmpTrue d _ => lo ≤ d && d ≤ hi
  | Instr.jmpFalse d _ => lo ≤ d && d ≤ hi
  | _ => true

/-- Widening the window preserves `destOK`. -/
theorem destOK_mono {lo hi lo' hi' : ℤ} (h1 : lo' ≤ lo) (h2 : hi ≤ hi')
    {i : Instr} (h : destOK lo hi i = true) : destOK lo' hi' i = true := by
  cases i <;> simp [destOK] at h ⊢ <;> omega

mutual

/-- Every jump the structural compiler emits for one statement lands
inside that statement's own code window `[p, p + stmtLen s]`. -/
theorem dests_stmt (p : ℕ) (s : Stmt) :
    ∀ i ∈ compileStmtAt p s, destOK (p : ℤ) ((p : ℤ) + stmtLen s) i = true := by
  cases s with
  | printS e a => intro i hi; simp [compileStmtAt] at hi; subst hi; rfl
  | lockS tgt e => intro i hi; simp [compileStmtAt] at hi; subst hi; rfl
  | setS tgt e => intro i hi; simp [compileStmtAt] at hi; subst hi; rfl
  | declareS q => intro i hi; simp [compileStmtAt] at hi; subst hi; rfl
  | waitS t => intro i hi; simp [compileStmtAt] at hi; subst hi; rfl
  | stageS => intro i hi; simp [compileStmtAt] at hi; subst hi; rfl
  | clearS => intro i hi; simp [compileStmtAt] at hi; subst hi; rfl
  | waitUntilS e =>
      intro i hi
      simp [compileStmtAt] at hi
      rcases hi with h | h | h <;> subst h <;> simp [destOK, stmtLen]
  | ifS e b =>
      intro i hi
      simp only [compileStmtAt, List.mem_cons] at hi
      rcases hi with h | h
      · subst h; simp [destOK, stmtLen, length_compileStmtsAt]; omega
      · exact destOK_mono (by omega) (by simp [stmtLen]; omega)
          (dests_stmts (p + 1) b i h)
  | ifElseS e b1 b2 =>
      intro i hi
      simp only [compileStmtAt, List.mem_cons, List.mem_append] at hi
      rcases hi with h | (h | (h | h))
      · subst h; simp [destOK, stmtLen]; omega
      · exact destOK_mono (by omega) (by simp [stmtLen]; omega)
          (dests_stmts (p + 1) b1 i h)
      · subst h; simp [destOK, stmtLen]; omega
      · exact destOK_mono (by omega) (by simp [stmtLen]; omega)
          (dests_stmts (p + 2 + stmtsLen b1) b2 i h)
  | untilS e b =>
      intro i hi
      simp only [compileStmtAt, List.mem_cons, List.mem_append] at hi
      rcases hi with h | (h | (h | h))
      · subst h; simp [destOK, stmtLen]; omega
      · exact destOK_mono (by omega) (by simp [stmtLen]; omega)
          (dests_stmts (p + 1) b i h)
      · subst h; rfl
      · rcases h with h | h
        · subst h; simp [destOK, stmtLen]; omega
        · simp at h

/-- Sequence version of `dests_stmt`. -/
theorem dests_stmts (p : ℕ) (ss : List Stmt) :
    ∀ i ∈ compileStmtsAt p ss, destOK (p : ℤ) ((p : ℤ) + stmtsLen ss) i = true := by
  cases ss with
  | nil => intro i hi; simp [compileStmtsAt] at hi
  | cons s ss' =>
      intro i hi
      simp only [compileStmtsAt, List.mem_append] at hi
      rcases hi with h | h
      · exact destOK_mono le_rfl (by simp [stmtsLen])
          (dests_stmt p s i h)
      · exact destOK_mono (by omega) (by simp [stmtsLen]; omega)
          (dests_stmts (p + stmtLen s) ss' i h)

end

/-- An instruction whose execution always sets `pc := pc + 1`
(everything except the three jump forms). -/
def Advancing : Instr → Bool
  | Instr.jmp _ => false
  | Instr.jmpTrue _ _ => false
  | Instr.jmpFalse _ _ => false
  | _ => true

/-- Executing an advancing instruction increments the program counter. -/
theorem execInstr_pc_advancing {s : VMState} {i : Instr} (h : Advancing i = true) :
    (execInstr s i).pc = s.pc + 1 := by
  cases i
  case stage => simp only [execInstr]; split <;> rfl
  case jmp d => simp [Advancing] at h
  case jmpTrue d e => simp [Advancing] at h
  case jmpFalse d e => simp [Advancing] at h
  all_goals rfl

/-- Execution never changes the program text. -/
theorem execInstr_instructions (s : VMState) (i : Instr) :
    (execInstr s i).instructions = s.instructions := by
  cases i <;> simp only [execInstr] <;> split <;> rfl

/-- A step from an instruction whose jump (if any) lands in `[lo, hi]`
either advances the counter or lands in `[lo, hi]`. -/
theorem execInstr_pc_mem {lo hi : ℤ} {i : Instr} (h : destOK lo hi i = true)
    (s : VMState) :
    (execInstr s i).pc = s.pc + 1 ∨
      (lo ≤ (execInstr s i).pc ∧ (execInstr s i).pc ≤ hi) := by
  cases i with
  | print e a => exact Or.inl rfl
  | lock t e => exact Or.inl rfl
  | setVar t e => exact Or.inl rfl
  | wait t => exact Or.inl rfl
  | yield => exact Or.inl rfl
  | stage => left; simp only [execInstr]; split <;> rfl
  | clear => exact Or.inl rfl
  | jmp d => right; simpa [destOK, execInstr] using h
  | jmpTrue d e =>
      simp only [execInstr]
      split
      · right; simpa [destOK] using h
      · left; rfl
  | jmpFalse d e =>
      simp only [execInstr]
      split
      · left; rfl
      · right; simpa [destOK] using h

/-- `step` preserves the program text. -/
theorem step_instructions (s : VMState) : (step s).instructions = s.instructions := by
  unfold step
  split
  · exact execInstr_instructions _ _
  · rfl

/-- Unfolding `stepN` at the back. -/
theorem stepN_succ_back (n : ℕ) (s : VMState) :
    stepN (n + 1) s = step (stepN n s) := by
  induction n generalizing s with
  | zero => rfl
  | succ m ih => rw [show m + 1 + 1 = m + 1 + 1 from rfl, stepN, ih, stepN]

/-- `stepN` preserves the program text. -/
theorem stepN_instructions (n : ℕ) (s : VMState) :
    (stepN n s).instructions = s.instructions := by
  induction n generalizing s with
  | zero => rfl
  | succ m ih => rw [stepN, ih, step_instructions]

/-- Running `k` steps through a straight-line block advances the counter
one position per step and touches no other program position. -/
theorem advance_run (k : ℕ) :
    ∀ (pre L rest : List Instr) (s : VMState),
      (∀ i ∈ L, Advancing i = true) → k ≤ L.length →
      s.instructions = pre ++ L ++ rest → s.pc = (pre.length : ℤ) →
      (stepN k s).pc = (pre.length : ℤ) + k := by
  induction k with
  | zero => intro pre L rest s _ _ _ hpc; simpa [stepN] using hpc
  | succ m ih =>
      intro pre L rest s hadv hk hprog hpc
      match L, hk with
      | l0 :: L', hk =>
          have hfetch : fetch s = some l0 := by
            unfold fetch
            rw [hpc, hprog]
            simp only [Int.natCast_nonneg, if_true, Int.toNat_natCast]
            rw [List.append_assoc, List.get?_eq_getElem?,
              List.getElem?_append_right le_rfl]
            simp
          have hstep : step s = execInstr s l0 := by unfold step; rw [hfetch]
          have hadv0 : Advancing l0 = true := hadv l0 (by simp)
          have hpc1 : (step s).pc = (pre.length : ℤ) + 1 := by
            rw [hstep, execInstr_pc_advancing hadv0, hpc]
          have hprog1 : (step s).instructions = (pre ++ [l0]) ++ L' ++ rest := by
            rw [step_instructions, hprog]; simp
          have := ih (pre ++ [l0]) L' rest (step s)
            (fun i hi => hadv i (by simp [hi])) (by simpa using hk) hprog1
            (by rw [hpc1]; simp)
          rw [stepN, this]
          simp only [List.length_append, List.length_singleton]
          push_cast
          ring

/-- Fetch at a nonnegative counter. -/
theorem fetch_eq (t : VMState) (h0 : 0 ≤ t.pc) :
    fetch t = t.instructions.get? t.pc.toNat := by
  unfold fetch
  simp [h0]

/-- A successful fetch makes `step` execute. -/
theorem step_eq_exec {t : VMState} {i : Instr} (h : fetch t = some i) :
    step t = execInstr t i := by
  unfold step
  rw [h]

/-- A failed fetch makes `step` the identity. -/
theorem step_eq_self {t : VMState} (h : fetch t = none) : step t = t := by
  unfold step
  rw [h]

/-- Window safety: starting inside `[lo, hi]`, in a program whose
instructions at the window's interior positions jump only inside the
window, execution stays inside the window until the first time the
counter hits the exit `xe` (the instruction at position `hi` itself, when
the exit is elsewhere, must be the unconditional jump to the exit). -/
theorem window_run (s : VMState) (lo hi xe : ℤ)
    (hmid : ∀ (m : ℕ), lo ≤ (m : ℤ) → (m : ℤ) < hi →
      ∀ i, s.instructions.get? m = some i → destOK lo hi i = true)
    (hend : xe = hi ∨
      (∀ i, s.instructions.get? hi.toNat = some i → i = Instr.jmp xe))
    (hpc : lo ≤ s.pc ∧ s.pc ≤ hi) :
    ∀ k, (∀ j, j ≤ k → (stepN j s).pc ≠ xe) →
      lo ≤ (stepN k s).pc ∧ (stepN k s).pc ≤ hi := by
  intro k
  induction k with
  | zero => intro _; simpa [stepN] using hpc
  | succ m ih =>
      intro hne
      have hm := ih (fun j hj => hne j (Nat.le_succ_of_le hj))
      rw [stepN_succ_back]
      set t := stepN m s with ht
      have htI : t.instructions = s.instructions := stepN_instructions m s
      by_cases h0 : (0 : ℤ) ≤ t.pc
      · rcases hfe : fetch t with _ | i
        · rw [step_eq_self hfe]; exact hm
        · rw [step_eq_exec hfe]
          have hfe' : s.instructions.get? t.pc.toNat = some i := by
            rw [← htI, ← fetch_eq t h0]; exact hfe
          by_cases hhit : t.pc = hi
          · rcases hend with he | he
            · exact absurd (hhit.trans he.symm) (hne m (Nat.le_succ m))
            · have hi0 : i = Instr.jmp xe := by
                refine he i ?_
                rw [← hhit]
                exact hfe'
              subst hi0
              refine absurd (rfl : (execInstr t (Instr.jmp xe)).pc = xe) ?_
              have hx := hne (m + 1) le_rfl
              rw [stepN_succ_back, ← ht, step_eq_exec hfe] at hx
              exact hx
          · have hlt : t.pc < hi := lt_of_le_of_ne hm.2 hhit
            have hok := hmid t.pc.toNat
              (by rw [Int.toNat_of_nonneg h0]; exact hm.1)
              (by rw [Int.toNat_of_nonneg h0]; exact hlt) i hfe'
            rcases execInstr_pc_mem hok t with ha | hj
            · rw [ha]; omega
            · exact hj
      · have hfe : fetch t = none := by unfold fetch; simp [h0]
        rw [step_eq_self hfe]
        exact hm

/-- The loop of `VM.tick` executes at most as many instructions as its
budget. -/
theorem tickLoop_count (b : ℕ) : ∀ s : VMState, (tickLoop b s).2 ≤ b := by
  induction b with
  | zero => intro s; simp [tickLoop]
  | succ m ih =>
      intro s
      rw [tickLoop]
      split
      · split
        · simp
        · split
          · simp
          · simpa using ih _
      · simp

/-- A sample telemetry/actuator snapshot used by concrete witnesses:
two stages left, 600 units of fuel of 600, 25000 kg of dry mass, zero
throttle, and an altitude of 1000. -/
def samplePhys : Phys :=
  ⟨2, 600, 600, 25000, JSVal.num 0, JSVal.num 90, JSVal.num 1000,
   JSVal.num 2000, JSVal.num 3000, JSVal.num 40⟩

/-- A fresh running VM over a given program. -/
def sampleVM (prog : List Instr) : VMState :=
  ⟨prog, 0, true, JSVal.num 0, [], samplePhys, []⟩

/-- C3: a single call to `tick(dt)` executes at most 20 instructions, on
every VM state (so also for a program with no `YIELD` or `WAIT`), every
executed instruction — jumps included — counting toward the budget. -/
theorem c3_tick_budget (dt : ℚ) (s : VMState) : (tick dt s).2 ≤ 20 := by
  unfold tick
  split
  · simp
  · split
    · simp
    · dsimp only
      split
      · simpa using tickLoop_count 20 s
      · simpa using tickLoop_count 20 s

/-- C5: executing `STAGE` with remaining stages `> 0` decrements the
stage count, refills fuel to the configured start amount and multiplies
dry mass by 0.6; with no stage left it changes none of those fields; the
counter advances by 1 in both cases.  In particular from 2 remaining
stages it leaves 1. -/
theorem c5_stage (s : VMState) :
    ((0 < s.phys.stages →
        (execInstr s Instr.stage).phys.stages = s.phys.stages - 1 ∧
        (execInstr s Instr.stage).phys.fuel = s.phys.fuelStart ∧
        (execInstr s Instr.stage).phys.massDry = s.phys.massDry * (3 / 5)) ∧
      (s.phys.stages = 0 → (execInstr s Instr.stage).phys = s.phys) ∧
      (execInstr s Instr.stage).pc = s.pc + 1) ∧
    (s.phys.stages = 2 →
      (execInstr s Instr.stage).phys.stages = 1 ∧
      (execInstr s Instr.stage).phys.fuel = s.phys.fuelStart ∧
      (execInstr s Instr.stage).phys.massDry = s.phys.massDry * (3 / 5)) := by
  refine ⟨⟨?_, ?_, ?_⟩, ?_⟩
  · intro h; simp [execInstr, h]
  · intro h; simp [execInstr, h]
  · by_cases h : 0 < s.phys.stages <;> simp [execInstr, h]
  · intro h
    have h2 : 0 < s.phys.stages := by rw [h]; norm_num
    simp [execInstr, h2, h]
    norm_num

/-- C5 witness: from the sample state (2 stages, dry mass 25000), one
`STAGE` leaves 1 stage, full fuel and dry mass 15000. -/
theorem c5_stage_witness :
    0 < (sampleVM [Instr.stage]).phys.stages ∧
    (execInstr (sampleVM [Instr.stage]) Instr.stage).phys.stages = 1 ∧
    (execInstr (sampleVM [Instr.stage]) Instr.stage).phys.fuel = 600 ∧
    (execInstr (sampleVM [Instr.stage]) Instr.stage).phys.massDry = 15000 := by
  have h := (c5_stage (sampleVM [Instr.stage])).2 (by decide)
  exact ⟨by decide, h.1, by rw [h.2.1]; rfl, by rw [h.2.2]; norm_num [sampleVM, samplePhys]⟩

/-- C10: when `run(code)` is called and compilation throws, the variable
store has been reset to empty while the program, counter, running flag
and wait timer keep their previous values — a VM that was running stays
running on its old program with cleared variables. -/
theorem c10_run_error_state (code : String) (st : VMState) (e : String)
    (h : compile code = Except.error e) :
    (run code st).vars = [] ∧
    (run code st).instructions = st.instructions ∧
    (run code st).pc = st.pc ∧
    (run code st).running = st.running ∧
    (run code st).waitTimer = st.waitTimer := by
  unfold run
  rw [h]
  exact ⟨rfl, rfl, rfl, rfl, rfl⟩

/-- C10 witness: `LOCK` as the whole program fails to compile; a running
VM keeps running its old one-instruction program with its counter, with
variables cleared. -/
theorem c10_witness :
    compile "LOCK" = Except.error "Cannot read properties of undefined (reading 'val')" ∧
    ((run "LOCK" { sampleVM [Instr.stage] with pc := 1, vars := [("X", JSVal.num 5)] }).vars = [] ∧
     (run "LOCK" { sampleVM [Instr.stage] with pc := 1, vars := [("X", JSVal.num 5)] }).instructions = [Instr.stage] ∧
     (run "LOCK" { sampleVM [Instr.stage] with pc := 1, vars := [("X", JSVal.num 5)] }).pc = 1 ∧
     (run "LOCK" { sampleVM [Instr.stage] with pc := 1, vars := [("X", JSVal.num 5)] }).running = true ∧
     (run "LOCK" { sampleVM [Instr.stage] with pc := 1, vars := [("X", JSVal.num 5)] }).waitTimer = JSVal.num 0) := by
  have hc : compile "LOCK" = Except.error "Cannot read properties of undefined (reading 'val')" := by
    have ht : tokenize "LOCK" = [mkTok "LOCK"] := by decide
    unfold compile compileFull
    rw [ht, cloop]
    simp [mkTok, KEYWORDS, Except.map]
  refine ⟨hc, ?_⟩
  have := c10_run_error_state "LOCK"
    { sampleVM [Instr.stage] with pc := 1, vars := [("X", JSVal.num 5)] }
    "Cannot read properties of undefined (reading 'val')" hc
  exact ⟨this.1, this.2.1, this.2.2.1, this.2.2.2.1, this.2.2.2.2⟩


/-- The concrete compile-error fact shared by several witnesses: `LOCK`
as the whole script makes `tokens[i+1].val` throw. -/
theorem compile_lock_throws :
    compile "LOCK" = Except.error "Cannot read properties of undefined (reading 'val')" := by
  have ht : tokenize "LOCK" = [mkTok "LOCK"] := by with_unfolding_all decide
  unfold compile compileFull
  rw [ht, cloop]
  simp [mkTok, KEYWORDS, Except.map]

/-- C9 (amended): whenever compilation throws, `run` catches the error,
resets only the variable store, appends the message to the log sink with
the `Compile Error: ` prefix, and never propagates; every other VM field
(program, counter, running flag, wait timer) keeps its previous value. -/
theorem c9_compile_error_handling (code : String) (st : VMState) (e : String)
    (h : compile code = Except.error e) :
    run code st =
      { st with vars := [],
                log := st.log ++
                  [⟨JSVal.str ("Compile Error: " ++ e), some "err", none⟩] } := by
  unfold run
  rw [h]

/-- C9 witness: running the failing script `LOCK` on a fresh VM logs the
compile error and changes nothing else. -/
theorem c9_witness :
    run "LOCK" (sampleVM []) =
      ⟨[], 0, true, JSVal.num 0, [], samplePhys,
       [⟨JSVal.str "Compile Error: Cannot read properties of undefined (reading 'val')",
         some "err", none⟩]⟩ := by
  have h := c9_compile_error_handling "LOCK" (sampleVM []) _ compile_lock_throws
  simpa [sampleVM] using h

/-- C9 counterexample: the claim as stated fails twice.  `LOCK THROTTLE .`
has its `TO` operand absent yet compiles without error (the in-bounds
accesses never throw), and a VM that was running before a failing `run`
is left running, not stopped. -/
theorem c9_counterexample :
    compile "LOCK THROTTLE ." = Except.ok [Instr.lock "THROTTLE" []] ∧
    (run "LOCK" (sampleVM [Instr.stage])).running = true := by
  constructor
  · have ht : tokenize "LOCK THROTTLE ." =
        [mkTok "LOCK", mkTok "THROTTLE", mkTok "."] := by with_unfolding_all decide
    unfold compile compileFull
    rw [ht, cloop]
    simp [mkTok, KEYWORDS, gather, gatherStop, cloop, Except.map]
  · unfold run
    rw [compile_lock_throws]
    rfl

/-- C4 (amended): for every script made of well-formed statements (the
spec's grammar: blocks written with their braces, operands present), the
compiler's block stack is empty at the end of compilation and every jump
destination lies in `[0, len]` — in particular no `-1` placeholder
remains. -/
theorem c4_balanced_blocks (ss : List Stmt) (h : goodStmts ss = true) :
    ∃ st : CSt, cloop (renderStmts ss) ⟨[], [], none⟩ = Except.ok st ∧
      st.stack = [] ∧
      ∀ i ∈ st.instrs, destOK 0 (st.instrs.length : ℤ) i = true := by
  refine ⟨⟨compileStmtsAt 0 ss, [], lciStmts 0 none ss⟩, ?_, rfl, ?_⟩
  · have h0 := cloop_stmts ss [] ⟨[], [], none⟩ h
    rw [List.append_nil] at h0
    rw [h0, cloop]
    simp
  · intro i hi
    have hd := dests_stmts 0 ss i (by simpa using hi)
    refine destOK_mono le_rfl ?_ (by simpa using hd)
    simp [length_compileStmtsAt]

/-- C4 witness: a well-formed `IF/ELSE` script compiles with an empty
stack and fully patched destinations. -/
theorem c4_witness :
    goodStmts [Stmt.ifElseS ["1"] [Stmt.printS ["2"] none] [Stmt.printS ["3"] none]] = true ∧
    (∃ st : CSt,
      cloop (renderStmts [Stmt.ifElseS ["1"] [Stmt.printS ["2"] none] [Stmt.printS ["3"] none]])
        ⟨[], [], none⟩ = Except.ok st ∧
      st.stack = [] ∧
      ∀ i ∈ st.instrs, destOK 0 (st.instrs.length : ℤ) i = true) := by
  have hg : goodStmts [Stmt.ifElseS ["1"] [Stmt.printS ["2"] none] [Stmt.printS ["3"] none]] = true := by
    simp [goodStmts, goodStmt, goodExpr, goodTok]
  exact ⟨hg, c4_balanced_blocks _ hg⟩

/-- C4 counterexample: the claim as stated (over every script whose
braces are balanced) fails: `IF 1 .` has balanced braces — it has none —
yet compilation ends with the IF still on the block stack and its
`JMP_FALSE` destination left at the `-1` placeholder, outside `[0, len]`. -/
theorem c4_counterexample :
    balancedBraces (tokenize "IF 1 .") = true ∧
    compileFull "IF 1 ." =
      Except.ok ⟨[Instr.jmpFalse (-1) ["1"]], [BlockEntry.ifB 0], none⟩ ∧
    destOK 0 1 (Instr.jmpFalse (-1) ["1"]) = false := by
  refine ⟨by with_unfolding_all decide, ?_, by decide⟩
  have ht : tokenize "IF 1 ." = [mkTok "IF", mkTok "1", mkTok "."] := by
    with_unfolding_all decide
  unfold compileFull
  rw [ht, cloop]
  simp [mkTok, KEYWORDS, gather, gatherStop, cloop]

/-- C6 (amended): an expression whose substituted text fails to lex,
parse or evaluate yields `0` from the evaluator with no error
propagated, and a `PRINT` of any expression still advances the program;
but a division by zero is not such a failure: following JS semantics it
yields `Infinity` (`NaN` for `0/0`), not `0`. -/
theorem c6_eval_failure_yields_zero :
    (∀ (phys : Phys) (vars : List (String × JSVal)) (toks : List String),
        jsEvalStr (evalSubst phys vars toks) = none →
        vmEval phys vars toks = JSVal.num 0) ∧
    (∀ (s : VMState) (e : List String) (a : Option (String × String)),
        fetch s = some (Instr.print e a) →
        (step s).pc = s.pc + 1 ∧ (step s).running = s.running) ∧
    vmEval samplePhys [] ["1", "/", "0"] = JSVal.inf ∧
    vmEval samplePhys [] ["0", "/", "0"] = JSVal.nan := by
  refine ⟨?_, ?_, ?_, ?_⟩
  · intro phys vars toks h
    unfold vmEval
    rw [h]
  · intro s e a h
    rw [step_eq_exec h]
    exact ⟨rfl, rfl⟩
  · with_unfolding_all decide
  · with_unfolding_all decide

/-- C6 witness: the malformed expression `+` evaluates to `0`, and a
`PRINT` executing it advances the counter without stopping the run. -/
theorem c6_witness :
    vmEval samplePhys [] ["+"] = JSVal.num 0 ∧
    (step (sampleVM [Instr.print ["+"] none])).pc = 1 ∧
    (step (sampleVM [Instr.print ["+"] none])).running = true := by
  refine ⟨c6_eval_failure_yields_zero.1 samplePhys [] ["+"] (by with_unfolding_all decide),
    ?_, ?_⟩
  · have h := c6_eval_failure_yields_zero.2.1 (sampleVM [Instr.print ["+"] none])
      ["+"] none (by with_unfolding_all decide)
    exact h.1
  · have h := c6_eval_failure_yields_zero.2.1 (sampleVM [Instr.print ["+"] none])
      ["+"] none (by with_unfolding_all decide)
    exact h.2

/-- C6 counterexample: the claim as stated says a division by zero makes
the evaluator return `0`; the code returns JS `Infinity`. -/
theorem c6_counterexample :
    vmEval samplePhys [] ["1", "/", "0"] = JSVal.inf ∧ JSVal.inf ≠ JSVal.num 0 := by
  exact ⟨by with_unfolding_all decide, by decide⟩

/-- C7 (amended): the variable substitutions are word-boundary (a
variable name inside a longer token is never replaced, a free-standing
occurrence is), but the telemetry substitutions are plain substring
replacements that do fire inside longer tokens. -/
theorem c7_word_boundary_vars :
    (∀ (r : String), wbReplace "a" r "apple" = "apple") ∧
    (∀ (r : String), wbReplace "a" r "a + apple" = r ++ " + apple") ∧
    (∀ (v : JSVal), evalSubst samplePhys [("a", v)] ["apple"] = "apple") ∧
    (∀ (v : JSVal),
        evalSubst samplePhys [("a", v)] ["a", "+", "apple"] = v.toStr ++ " + apple") ∧
    evalSubst samplePhys [] ["XALTITUDE"] = "X1000" := by
  refine ⟨?_, ?_, ?_, ?_, by with_unfolding_all decide⟩
  · intro r
    with_unfolding_all rfl
  · intro r
    with_unfolding_all rfl
  · intro v
    with_unfolding_all rfl
  · intro v
    with_unfolding_all rfl

/-- C7 counterexample: the claim as stated says every symbol resolution
replaces only full tokens; the `ALTITUDE` substitution fires inside the
longer token `XALTITUDE`. -/
theorem c7_counterexample :
    evalSubst samplePhys [] ["XALTITUDE"] = "X1000" ∧ "X1000" ≠ "XALTITUDE" := by
  exact ⟨by with_unfolding_all decide, by decide⟩

/-- C8: the `ROUND(3.7)` pipeline is broken in the code.  The tokenizer
splits `3.7` at the dot, `gather` stops at that dot so the captured
expression is `ROUND ( 3`, the space-joined text never matches the
`ROUND(` pattern, and evaluation fails to `0` — although the intended
rewrite `Math.round(3.7)` would evaluate to `4` as the spec says. -/
theorem c8_round_pipeline_bug :
    compile "PRINT ROUND(3.7) ." = Except.ok [Instr.print ["ROUND", "(", "3"] none] ∧
    vmEval samplePhys [] ["ROUND", "(", "3"] = JSVal.num 0 ∧
    jsEvalStr "Math.round(3.7)" = some (JSVal.num 4) := by
  refine ⟨?_, by with_unfolding_all decide, by with_unfolding_all decide⟩
  have ht : tokenize "PRINT ROUND(3.7) ." =
      [mkTok "PRINT", mkTok "ROUND", mkTok "(", mkTok "3", mkTok ".", mkTok "7",
       mkTok ")", mkTok "."] := by with_unfolding_all decide
  unfold compile compileFull
  rw [ht]
  rw [cloop_print _ _ ["ROUND", "(", "3"] [mkTok ".", mkTok "7", mkTok ")", mkTok "."]
    (by with_unfolding_all decide) (by with_unfolding_all decide)]
  rw [show (List.tail [mkTok ".", mkTok "7", mkTok ")", mkTok "."]) =
    [mkTok "7", mkTok ")", mkTok "."] from rfl]
  rw [cloop_skip (mkTok "7") _ _ rfl (by decide),
    cloop_skip (mkTok ")") _ _ rfl (by decide),
    cloop_skip (mkTok ".") _ _ rfl (by decide), cloop]
  rfl


/-- C2: `WAIT UNTIL <expr>` compiles to exactly three instructions at
consecutive positions `s, s+1, s+2`: a `JMP_TRUE` carrying the captured
condition with destination `s+3`, a `YIELD`, and a `JMP` back to `s`
(first conjunct, for any script suffix and compiler state); and at run
time the condition is polled once per re-entry: from the guard a truthy
condition steps straight to `s+3`; a falsy condition makes the whole
tick end at `s+2` after executing exactly the guard and the `YIELD`,
still running; and re-entering at `s+2` jumps back to `s`, where a truthy
condition then advances to `s+3`. -/
theorem c2_wait_until (rest : List Token) (cst : CSt) (dt : ℚ)
    (st : VMState) (s : ℕ) (e : List String)
    (h0 : st.instructions.get? s = some (Instr.jmpTrue ((s : ℤ) + 3) e))
    (h1 : st.instructions.get? (s + 1) = some Instr.yield)
    (h2 : st.instructions.get? (s + 2) = some (Instr.jmp (s : ℤ)))
    (hrun : st.running = true)
    (hwt : JSVal.gtJ st.waitTimer (JSVal.num 0) = false) :
    (cloop (mkTok "WAIT" :: mkTok "UNTIL" :: rest) cst =
      cloop (gather rest).2.tail
        { cst with instrs := cst.instrs ++
            [Instr.jmpTrue ((cst.instrs.length : ℤ) + 3) (gather rest).1, Instr.yield,
             Instr.jmp (cst.instrs.length : ℤ)] }) ∧
    (st.pc = (s : ℤ) → (vmEval st.phys st.vars e).truthy = true →
      (step st).pc = (s : ℤ) + 3) ∧
    (st.pc = (s : ℤ) → (vmEval st.phys st.vars e).truthy = false →
      (tick dt st).1.pc = (s : ℤ) + 2 ∧ (tick dt st).2 = 2 ∧
      (tick dt st).1.running = true) ∧
    (st.pc = (s : ℤ) + 2 →
      (step st).pc = (s : ℤ) ∧
      ((vmEval st.phys st.vars e).truthy = true → (stepN 2 st).pc = (s : ℤ) + 3)) := by
  have hlen : s + 2 < st.instructions.length := by
    obtain ⟨hl, -⟩ := List.get?_eq_some.mp h2
    exact hl
  refine ⟨?_, ?_, ?_, ?_⟩
  · exact cloop_wait_until (mkTok "UNTIL" :: rest) cst (mkTok "UNTIL")
      (gather rest).1 (gather rest).2 rfl rfl rfl
  · intro hpc ht
    have hf : fetch st = some (Instr.jmpTrue ((s : ℤ) + 3) e) := by
      rw [fetch_eq st (by rw [hpc]; exact Int.natCast_nonneg s), hpc]
      simpa using h0
    rw [step_eq_exec hf]
    simp [execInstr, ht]
  · intro hpc hf
    have hfJ : fetch st = some (Instr.jmpTrue ((s : ℤ) + 3) e) := by
      rw [fetch_eq st (by rw [hpc]; exact Int.natCast_nonneg s), hpc]
      simpa using h0
    have hst1 : execInstr st (Instr.jmpTrue ((s : ℤ) + 3) e) =
        { st with pc := st.pc + 1 } := by
      simp [execInstr, hf]
    have hloop : tickLoop 20 st =
        ({ st with pc := st.pc + 2 }, 2) := by
      rw [show (20 : ℕ) = 19 + 1 from rfl, tickLoop]
      have hc1 : st.pc < (st.instructions.length : ℤ) := by
        rw [hpc]; omega
      rw [if_pos hc1, hfJ]
      simp only [isBreakOp, hst1]
      rw [show (19 : ℕ) = 18 + 1 from rfl, tickLoop]
      have hc2 : ({ st with pc := st.pc + 1 } : VMState).pc <
          (({ st with pc := st.pc + 1 } : VMState).instructions.length : ℤ) := by
        simp only []
        rw [hpc]
        omega
      rw [if_pos hc2]
      have hf2 : fetch { st with pc := st.pc + 1 } = some Instr.yield := by
        rw [fetch_eq _ (by rw [hpc]; positivity)]
        simp only []
        rw [hpc]
        rw [show ((s : ℤ) + 1).toNat = s + 1 by omega]
        exact h1
      rw [hf2]
      simp only [isBreakOp, Bool.false_eq_true, if_false, if_true]
      simp only [execInstr]
      rw [show st.pc + 1 + 1 = st.pc + 2 by ring]
    unfold tick
    rw [hrun]
    simp only [Bool.not_true, Bool.false_eq_true, if_false, hwt, hloop]
    have hend : ¬ ((({ st with pc := st.pc + 2 } : VMState).instructions.length : ℤ) ≤
        ({ st with pc := st.pc + 2 } : VMState).pc ∧
        ({ st with pc := st.pc + 2 } : VMState).running = true) := by
      intro hcon
      have := hcon.1
      simp only [] at this
      rw [hpc] at this
      omega
    rw [if_neg hend]
    refine ⟨by simp [hpc], rfl, by simp [hrun]⟩
  · intro hpc
    have hfJ : fetch st = some (Instr.jmp (s : ℤ)) := by
      rw [fetch_eq st (by rw [hpc]; positivity), hpc]
      rw [show ((s : ℤ) + 2).toNat = s + 2 by omega]
      exact h2
    have hstep : step st = { st with pc := (s : ℤ) } := by
      rw [step_eq_exec hfJ]
      simp [execInstr]
    refine ⟨by rw [hstep], ?_⟩
    intro ht
    have hf0 : fetch { st with pc := (s : ℤ) } =
        some (Instr.jmpTrue ((s : ℤ) + 3) e) := by
      rw [fetch_eq _ (by simp)]
      simpa using h0
    rw [show (2 : ℕ) = 1 + 1 from rfl, stepN, stepN, stepN, hstep, step_eq_exec hf0]
    simp [execInstr, ht]


/-- The instruction at the junction position of a split program. -/
theorem get_at_append (l1 : List Instr) (x : Instr) (l2 : List Instr) :
    (l1 ++ x :: l2).get? l1.length = some x := by
  rw [List.get?_eq_getElem?, List.getElem?_append_right le_rfl]
  simp

/-- The instruction at an interior position of the block after the
junction. -/
theorem get_inner (l1 : List Instr) (x : Instr) (L l2 : List Instr) (m : ℕ)
    (h1 : 1 ≤ m) (h2 : m < 1 + L.length) :
    (l1 ++ x :: (L ++ l2)).get? (l1.length + m) = L.get? (m - 1) := by
  rw [List.get?_eq_getElem?, List.get?_eq_getElem?]
  rw [List.getElem?_append_right (by omega : l1.length ≤ l1.length + m)]
  rw [show l1.length + m - l1.length = m from by omega]
  match m, h1 with
  | n + 1, _ =>
      rw [List.getElem?_cons_succ]
      rw [List.getElem?_append_left (by omega)]
      simp

/-- C1: for a compiled `IF cond { A } ELSE { B }` — the guard `JMP_FALSE`
at position `s = |pre|` aimed at the ELSE body, the branch `A`, the
skip-`JMP` aimed past the construct, the branch `B` — exactly one branch
executes per arrival at the guard, chosen by the truthiness of the
condition at the moment the guard is evaluated.  Truthy: as long as the
after-construct exit has not been reached, the counter never enters `B`
(for any `A` whose jumps stay inside `A` and its skip-jump), and for a
straight-line `A` every position of `A` is visited in order before the
skip jump lands exactly past `B`.  Falsy: symmetrically, `A` and the
skip-jump are never visited, and a straight-line `B` is visited in full,
falling off its end at the same exit. -/
theorem c1_if_else_exclusive (pre A B post : List Instr) (e : List String)
    (st : VMState)
    (hprog : st.instructions =
      pre ++ Instr.jmpFalse ((pre.length : ℤ) + A.length + 2) e ::
        (A ++ Instr.jmp ((pre.length : ℤ) + A.length + 2 + B.length) ::
          (B ++ post)))
    (hpc : st.pc = (pre.length : ℤ)) :
    ((vmEval st.phys st.vars e).truthy = true →
      ((∀ i ∈ A, destOK ((pre.length : ℤ) + 1) ((pre.length : ℤ) + 1 + A.length) i = true) →
        ∀ k, (∀ j, j ≤ k →
            (stepN j st).pc ≠ (pre.length : ℤ) + A.length + 2 + B.length) →
          ¬ ((pre.length : ℤ) + A.length + 2 ≤ (stepN k st).pc ∧
             (stepN k st).pc < (pre.length : ℤ) + A.length + 2 + B.length)) ∧
      ((∀ i ∈ A, Advancing i = true) →
        (∀ k, 1 ≤ k → k ≤ A.length + 1 →
          (stepN k st).pc = (pre.length : ℤ) + k) ∧
        (stepN (A.length + 2) st).pc = (pre.length : ℤ) + A.length + 2 + B.length)) ∧
    ((vmEval st.phys st.vars e).truthy = false →
      ((∀ i ∈ B, destOK ((pre.length : ℤ) + A.length + 2)
          ((pre.length : ℤ) + A.length + 2 + B.length) i = true) →
        ∀ k, (∀ j, j ≤ k →
            (stepN j st).pc ≠ (pre.length : ℤ) + A.length + 2 + B.length) →
          ¬ ((pre.length : ℤ) + 1 ≤ (stepN k st).pc ∧
             (stepN k st).pc < (pre.length : ℤ) + A.length + 2)) ∧
      ((∀ i ∈ B, Advancing i = true) →
        (stepN 1 st).pc = (pre.length : ℤ) + A.length + 2 ∧
        ∀ k, k ≤ B.length →
          (stepN (1 + k) st).pc = (pre.length : ℤ) + A.length + 2 + k)) := by
  have hfG : fetch st =
      some (Instr.jmpFalse ((pre.length : ℤ) + A.length + 2) e) := by
    rw [fetch_eq st (by rw [hpc]; positivity), hpc, Int.toNat_natCast, hprog]
    exact get_at_append pre _ _
  constructor
  · intro ht
    have hst1 : step st = { st with pc := st.pc + 1 } := by
      rw [step_eq_exec hfG]
      simp [execInstr, ht]
    constructor
    · intro hA k hne
      match k with
      | 0 =>
          simp only [stepN]
          rw [hpc]
          intro hcon
          omega
      | m + 1 =>
          have hwin := window_run { st with pc := st.pc + 1 }
            ((pre.length : ℤ) + 1) ((pre.length : ℤ) + 1 + A.length)
            ((pre.length : ℤ) + A.length + 2 + B.length)
            ?_ ?_ ?_ m ?_
          · have hsm : stepN (m + 1) st = stepN m { st with pc := st.pc + 1 } := by
              rw [stepN, hst1]
            rw [hsm]
            intro hcon
            omega
          · intro m' hm1 hm2 i hget
            simp only [VMState.instructions] at hget
            rw [hprog] at hget
            have hm' : m' = pre.length + (m' - pre.length) := by omega
            rw [hm', get_inner pre _ A _ (m' - pre.length) (by omega) (by omega)] at hget
            exact hA i (List.get?_mem hget)
          · right
            intro i hget
            simp only [VMState.instructions] at hget
            rw [hprog] at hget
            rw [show ((pre.length : ℤ) + 1 + A.length).toNat =
              pre.length + (1 + A.length) from by omega] at hget
            rw [show pre.length + (1 + A.length) = (pre ++
              Instr.jmpFalse ((pre.length : ℤ) + A.length + 2) e :: A).length from by
                simp; omega] at hget
            rw [show pre ++ Instr.jmpFalse ((pre.length : ℤ) + A.length + 2) e ::
                (A ++ Instr.jmp ((pre.length : ℤ) + A.length + 2 + B.length) ::
                  (B ++ post)) =
              (pre ++ Instr.jmpFalse ((pre.length : ℤ) + A.length + 2) e :: A) ++
                Instr.jmp ((pre.length : ℤ) + A.length + 2 + B.length) ::
                  (B ++ post) from by simp] at hget
            rw [get_at_append] at hget
            exact (Option.some.injEq _ _ ▸ hget).symm
          · constructor
            · simp [hpc]
            · simp [hpc]
          · intro j hj
            have : stepN j { st with pc := st.pc + 1 } = stepN (j + 1) st := by
              rw [stepN, hst1]
            rw [this]
            exact hne (j + 1) (by omega)
    · intro hAdv
      have hrunA : ∀ m, m ≤ A.length →
          (stepN m { st with pc := st.pc + 1 }).pc =
            ((pre ++ [Instr.jmpFalse ((pre.length : ℤ) + A.length + 2) e]).length : ℤ) + m := by
        intro m hm
        refine advance_run m
          (pre ++ [Instr.jmpFalse ((pre.length : ℤ) + A.length + 2) e]) A
          (Instr.jmp ((pre.length : ℤ) + A.length + 2 + B.length) :: (B ++ post))
          _ hAdv hm ?_ ?_
        · simp only [VMState.instructions]
          rw [hprog]
          simp
        · simp only [VMState.pc]
          rw [hpc]
          simp
      have hfirst : ∀ k, 1 ≤ k → k ≤ A.length + 1 →
          (stepN k st).pc = (pre.length : ℤ) + k := by
        intro k hk1 hk2
        match k, hk1 with
        | m + 1, _ =>
            have : stepN (m + 1) st = stepN m { st with pc := st.pc + 1 } := by
              rw [stepN, hst1]
            rw [this, hrunA m (by omega)]
            simp
            ring
      refine ⟨hfirst, ?_⟩
      have hlast := hfirst (A.length + 1) (by omega) (by omega)
      rw [show A.length + 2 = (A.length + 1) + 1 from rfl, stepN_succ_back]
      have hfJ : fetch (stepN (A.length + 1) st) =
          some (Instr.jmp ((pre.length : ℤ) + A.length + 2 + B.length)) := by
        rw [fetch_eq _ (by rw [hlast]; positivity), hlast]
        rw [show ((pre.length : ℤ) + ((A.length + 1 : ℕ) : ℤ)).toNat =
          (pre ++ Instr.jmpFalse ((pre.length : ℤ) + A.length + 2) e :: A).length
          from by simp; omega]
        rw [stepN_instructions, hprog]
        rw [show pre ++ Instr.jmpFalse ((pre.length : ℤ) + A.length + 2) e ::
            (A ++ Instr.jmp ((pre.length : ℤ) + A.length + 2 + B.length) ::
              (B ++ post)) =
          (pre ++ Instr.jmpFalse ((pre.length : ℤ) + A.length + 2) e :: A) ++
            Instr.jmp ((pre.length : ℤ) + A.length + 2 + B.length) ::
              (B ++ post) from by simp]
        exact get_at_append _ _ _
      rw [step_eq_exec hfJ]
      rfl
  · intro hf
    have hst1 : step st = { st with pc := (pre.length : ℤ) + A.length + 2 } := by
      rw [step_eq_exec hfG]
      simp [execInstr, hf]
    constructor
    · intro hB k hne
      match k with
      | 0 =>
          simp only [stepN]
          rw [hpc]
          intro hcon
          omega
      | m + 1 =>
          have hwin := window_run { st with pc := (pre.length : ℤ) + A.length + 2 }
            ((pre.length : ℤ) + A.length + 2)
            ((pre.length : ℤ) + A.length + 2 + B.length)
            ((pre.length : ℤ) + A.length + 2 + B.length)
            ?_ (Or.inl rfl) ?_ m ?_
          · have hsm : stepN (m + 1) st =
                stepN m { st with pc := (pre.length : ℤ) + A.length + 2 } := by
              rw [stepN, hst1]
            rw [hsm]
            intro hcon
            omega
          · intro m' hm1 hm2 i hget
            simp only [VMState.instructions] at hget
            rw [hprog] at hget
            rw [show pre ++ Instr.jmpFalse ((pre.length : ℤ) + A.length + 2) e ::
                (A ++ Instr.jmp ((pre.length : ℤ) + A.length + 2 + B.length) ::
                  (B ++ post)) =
              (pre ++ Instr.jmpFalse ((pre.length : ℤ) + A.length + 2) e :: A) ++
                Instr.jmp ((pre.length : ℤ) + A.length + 2 + B.length) ::
                  (B ++ post) from by simp] at hget
            have hL : (pre ++ Instr.jmpFalse ((pre.length : ℤ) + A.length + 2) e ::
                A).length = pre.length + 1 + A.length := by simp; omega
            rw [show m' = (pre ++ Instr.jmpFalse ((pre.length : ℤ) + A.length + 2) e ::
                A).length + (m' - (pre.length + 1 + A.length)) from by omega] at hget
            rw [get_inner _ _ B post _ (by omega) (by rw [hL] at *; omega)] at hget
            exact hB i (List.get?_mem hget)
          · constructor
            · simp
            · simp
          · intro j hj
            have : stepN j { st with pc := (pre.length : ℤ) + A.length + 2 } =
                stepN (j + 1) st := by
              rw [stepN, hst1]
            rw [this]
            exact hne (j + 1) (by omega)
    · intro hAdv
      have h1 : (stepN 1 st).pc = (pre.length : ℤ) + A.length + 2 := by
        rw [show (1 : ℕ) = 0 + 1 from rfl, stepN, stepN, hst1]
      refine ⟨h1, ?_⟩
      intro k hk
      have : stepN (1 + k) st = stepN k { st with pc := (pre.length : ℤ) + A.length + 2 } := by
        rw [show 1 + k = k + 1 from by omega]
        rw [stepN, hst1]
      rw [this]
      have := advance_run k
        (pre ++ Instr.jmpFalse ((pre.length : ℤ) + A.length + 2) e ::
          (A ++ [Instr.jmp ((pre.length : ℤ) + A.length + 2 + B.length)])) B post
        { st with pc := (pre.length : ℤ) + A.length + 2 } hAdv hk ?_ ?_
      · rw [this]
        simp
        ring
      · simp only [VMState.instructions]
        rw [hprog]
        simp
      · simp only [VMState.pc]
        simp
        omega


/-- C2 witness: a concrete `WAIT UNTIL` whose condition is `0` suspends:
one tick from the guard executes exactly two instructions and parks the
counter on the back-jump, still running. -/
theorem c2_witness :
    (tick 1 (sampleVM [Instr.jmpTrue 3 ["0"], Instr.yield, Instr.jmp 0])).1.pc = 2 ∧
    (tick 1 (sampleVM [Instr.jmpTrue 3 ["0"], Instr.yield, Instr.jmp 0])).2 = 2 ∧
    (tick 1 (sampleVM [Instr.jmpTrue 3 ["0"], Instr.yield, Instr.jmp 0])).1.running = true := by
  have H := c2_wait_until [] ⟨[], [], none⟩ 1
    (sampleVM [Instr.jmpTrue 3 ["0"], Instr.yield, Instr.jmp 0]) 0 ["0"]
    (by decide) (by decide) (by decide) (by decide) (by with_unfolding_all decide)
  have h := H.2.2.1 (by decide) (by with_unfolding_all decide)
  exact ⟨by simpa using h.1, h.2.1, h.2.2⟩

/-- C1 witness: the compiled `IF 1 ... ELSE ...` script takes exactly the
then-branch: the guard falls through to the branch body, the skip-jump
then lands past the else body. -/
theorem c1_witness :
    compile "IF 1 \x7b PRINT 2 . \x7d ELSE \x7b PRINT 3 . \x7d" =
      Except.ok [Instr.jmpFalse 3 ["1"], Instr.print ["2"] none, Instr.jmp 4,
                 Instr.print ["3"] none] ∧
    (stepN 1 (sampleVM [Instr.jmpFalse 3 ["1"], Instr.print ["2"] none, Instr.jmp 4,
        Instr.print ["3"] none])).pc = 1 ∧
    (stepN 2 (sampleVM [Instr.jmpFalse 3 ["1"], Instr.print ["2"] none, Instr.jmp 4,
        Instr.print ["3"] none])).pc = 2 ∧
    (stepN 3 (sampleVM [Instr.jmpFalse 3 ["1"], Instr.print ["2"] none, Instr.jmp 4,
        Instr.print ["3"] none])).pc = 4 := by
  have H := c1_if_else_exclusive [] [Instr.print ["2"] none] [Instr.print ["3"] none] []
    ["1"]
    (sampleVM [Instr.jmpFalse 3 ["1"], Instr.print ["2"] none, Instr.jmp 4,
      Instr.print ["3"] none])
    (by decide) (by decide)
  have HL := (H.1 (by with_unfolding_all decide)).2 (by decide)
  refine ⟨?_, ?_, ?_, ?_⟩
  · have ht : tokenize "IF 1 \x7b PRINT 2 . \x7d ELSE \x7b PRINT 3 . \x7d" =
        renderStmts [Stmt.ifElseS ["1"] [Stmt.printS ["2"] none] [Stmt.printS ["3"] none]]
          ++ ([] : List Token) := by
      rw [List.append_nil]
      rw [show renderStmts [Stmt.ifElseS ["1"] [Stmt.printS ["2"] none]
            [Stmt.printS ["3"] none]] =
          [mkTok "IF", mkTok "1", mkTok "\x7b", mkTok "PRINT", mkTok "2", mkTok ".",
           mkTok "\x7d", mkTok "ELSE", mkTok "\x7b", mkTok "PRINT", mkTok "3", mkTok ".",
           mkTok "\x7d"] from by simp [renderStmts, renderStmt]]
      with_unfolding_all decide
    unfold compile compileFull
    rw [ht, cloop_stmts _ [] _ (by simp [goodStmts, goodStmt, goodExpr, goodTok]), cloop]
    simp [compileStmtsAt, compileStmtAt, stmtsLen, stmtLen, lciStmts, lciStmt, Except.map]
  · simpa using HL.1 1 (by norm_num) (by norm_num)
  · simpa using HL.1 2 (by norm_num) (by norm_num)
  · simpa using HL.2

end KSharp
